import Mathlib

/-!
Verification development for the `pyarty` bundle library.

The Python source (`pyarty/dsl.py`, `pyarty/writer.py`, `pyarty/reader.py`)
is shallowly embedded below.  Python's dynamically typed runtime values are
modelled by explicit inductive types, exceptions by `Except` / explicit error
results, and the filesystem by an inductive tree of directories and files
whose contents are strings.  Recursive traversals that walk dynamic values or
directory trees take an explicit fuel argument (the Python recursion is bounded
by the tree depth, so any fuel at least the size of the input makes the model
agree with the source).

Modelling notes, applying to the whole file:
* Python exception classes are modelled as constructors of error types; the
  doc comment of each constructor names the Python exception it stands for.
* `str.strip` / `str.lower` are modelled over ASCII (the claims only involve
  ASCII data).
* The JSON codec (`json.loads` / `json.dumps`) is an external primitive
  consumed by the code; it is modelled concretely below for the JSON fragment
  exercised by the claims (null, booleans, integers, strings, arrays,
  objects); floats and `\u` escapes are outside the model.
* Naming callables (`HintKind.CALLABLE`) are modelled as functions of the
  optional collection index only; the context argument and the introspective
  arity adaptation of `_invoke_hint_callable` are not modelled, because no
  claim resolves a callable hint.
-/

namespace Pyarty

/-! ### Python string helpers -/

/-- Whitespace characters recognised by Python's `str.strip` (ASCII subset). -/
def isPySpace (c : Char) : Bool :=
  c = ' ' || c = '\t' || c = '\n' || c = '\r' || c = Char.ofNat 11 || c = Char.ofNat 12

/-- Lower-case an ASCII character, as Python's `str.lower` does on ASCII. -/
def pyLowerChar (c : Char) : Char :=
  if 'A' ≤ c ∧ c ≤ 'Z' then Char.ofNat (c.toNat + 32) else c

/-- Model of Python `str.strip()` (no arguments): drop leading and trailing
whitespace. -/
def pyStrip (s : String) : String :=
  String.mk (((s.data.dropWhile isPySpace).reverse.dropWhile isPySpace).reverse)

/-- Model of Python `str.lower()` on ASCII strings. -/
def pyLower (s : String) : String :=
  String.mk (s.data.map pyLowerChar)

/-- Whether the string contains the given character (Python `c in s`). -/
def strHasChar (s : String) (c : Char) : Bool :=
  s.data.contains c

/-- The opening brace character, written via its code point. -/
def lbrace : Char := Char.ofNat 123

/-- The closing brace character, written via its code point. -/
def rbrace : Char := Char.ofNat 125

/-- Split a character list at every occurrence of `c` (like Python
`str.split(c)` with a single-character separator). -/
def splitOnCharList (c : Char) : List Char → List (List Char)
  | [] => [[]]
  | x :: xs =>
    let rest := splitOnCharList c xs
    if x = c then
      [] :: rest
    else
      match rest with
      | [] => [[x]]
      | r :: rs => (x :: r) :: rs

/-- Split a string at every occurrence of character `c`. -/
def strSplitOnChar (s : String) (c : Char) : List String :=
  (splitOnCharList c s.data).map String.mk

/-- Model of Python `str.rstrip(chars)` restricted to a concrete character
set: drop trailing characters belonging to `cs`. -/
def pyRstripChars (s : String) (cs : List Char) : String :=
  String.mk ((s.data.reverse.dropWhile (fun c => cs.contains c)).reverse)

/-- Python string-ordering (`<` on `str`): lexicographic on code points. -/
def strLtB (a b : String) : Bool :=
  match compare a b with
  | .lt => true
  | _ => false

/-! ### DSL data model (`pyarty/dsl.py`) -/

/-- Classification for bundle fields (`FieldKind` in `dsl.py`). -/
inductive FieldKind where
  | DIR
  | FILE
  | VALUE
deriving Repr, DecidableEq

/-- Classification for naming/prefix hints (`HintKind` in `dsl.py`). -/
inductive HintKind where
  | LITERAL
  | TEMPLATE
  | CALLABLE
deriving Repr, DecidableEq

/-- The two DSL layers a metadata record can target; the Python code uses the
marker classes `Dir` and `File` themselves as layer tags. -/
inductive Layer where
  | LDir
  | LFile
deriving Repr, DecidableEq

/-- Python `layer.__name__` for a layer tag. -/
def Layer.pyName : Layer → String
  | .LDir => "Dir"
  | .LFile => "File"

/-- Errors raised while building a bundle definition.  `metadataError` models
`BundleMetadataError`, `invalidAnn` models `InvalidBundleAnnotation`,
and `pyTypeError` models a plain Python `TypeError`/`AttributeError` escaping
from duck-typed code (no claim exercises it). -/
inductive BErr where
  | metadataError (msg : String)
  | invalidAnn (msg : String)
  | pyTypeError (msg : String)
deriving Repr, DecidableEq

/-- Behaviour of a naming callable: a function from the optional collection
index to the produced name (see the modelling notes in the file header). -/
def HintFn : Type := Option Nat → String

/-- The payload of a `Hint`: a string (literal or template text) or a
callable. -/
inductive HintVal where
  | hvStr (s : String)
  | hvFn (f : HintFn)

/-- Normalized runtime naming hint (`Hint` in `dsl.py`). -/
structure Hint where
  kind : HintKind
  value : HintVal
  source : String

/-- A value standing in a field's raw metadata mapping, as classified by
`_normalize_hint_entry` and friends: `None`, a string, a callable, an
already-normalized `Hint`, a tuple, a list, a mapping with string keys, or
any other object. -/
inductive DynVal where
  | dNone
  | dStr (s : String)
  | dCallable (f : HintFn)
  | dHint (h : Hint)
  | dTuple (xs : List DynVal)
  | dList (xs : List DynVal)
  | dMap (m : List (String × DynVal))
  | dOther

/-- A value of a normalized per-layer metadata mapping: `name`/`prefix`
entries hold `Hint`s, `extension` holds a normalized string, and unknown keys
pass through unchanged. -/
inductive MetaOut where
  | moHint (h : Hint)
  | moExt (s : String)
  | moPass (v : DynVal)

/-- Normalized metadata targeting a specific DSL layer
(`BundleMetadata` in `dsl.py`). -/
structure BundleMetadata where
  layer : Layer
  index : Nat
  data : List (String × MetaOut)

mutual
/-- A type annotation as the DSL inspects it via `typing.get_origin` /
`get_args`: primitives, `Union[...]`, list-like generics (`list`,
`Sequence`, `MutableSequence`), set-like generics (`set`, `frozenset`,
`AbstractSet`, `Iterable`), tuple generics, mapping generics, a bare `dict`,
`Annotated[...]`, the `Dir[...]` and `File[...]` markers, a reference to a
`@bundle`-decorated class (carrying its built definition, mirroring
`__bundle_definition__`), or some other class. -/
inductive Ann where
  | aStr
  | aInt
  | aFloat
  | aBool
  | aAnyT
  | aDictBare
  | union (args : List Ann)
  | listA (args : List Ann)
  | setA (args : List Ann)
  | tupleA (args : List Ann)
  | dictA (args : List Ann)
  | annotated (base : Ann)
  | dirA (args : List Ann)
  | fileA (args : List Ann)
  | bundleCls (d : BundleDefinition)
  | otherCls

/-- Representation of a dataclass field participating in the DSL
(`BundleField` in `dsl.py`; the unused `dataclass_field` and `raw_metadata`
carriers are omitted). -/
inductive BundleField where
  | mk (name : String) (kind : FieldKind) ( annotation : Ann)
       (metadata : List BundleMetadata) (is_collection : Bool)

/-- Container describing the structure of a bundle-decorated dataclass
(`BundleDefinition` in `dsl.py`; the class object itself is represented only
through this definition). -/
inductive BundleDefinition where
  | mk (fields : List BundleField)
end

/-- Name of a `BundleField`. -/
def BundleField.name : BundleField → String
  | .mk n _ _ _ _ => n

/-- Kind of a `BundleField`. -/
def BundleField.kind : BundleField → FieldKind
  | .mk _ k _ _ _ => k

/-- Annotation of a `BundleField`. -/
def BundleField.annotation : BundleField → Ann
  | .mk _ _ a _ _ => a

/-- Normalized metadata of a `BundleField`. -/
def BundleField.metadata : BundleField → List BundleMetadata
  | .mk _ _ _ m _ => m

/-- Collection flag of a `BundleField`. -/
def BundleField.is_collection : BundleField → Bool
  | .mk _ _ _ _ c => c

/-- Fields of a `BundleDefinition`. -/
def BundleDefinition.fields : BundleDefinition → List BundleField
  | .mk fs => fs

/-- A dynamically typed Python runtime value, as far as the writer inspects
one: `None`, strings, bytes, booleans, integers, lists, dicts with string
keys, and object instances.  An instance carries the bundle definition
attached to its class (if any) and its attribute dictionary (`vars(obj)`).
Floats are not modelled (no claim involves them). -/
inductive PyVal where
  | vNone
  | vStr (s : String)
  | vBytes (s : String)
  | vBool (b : Bool)
  | vInt (n : Int)
  | vList (xs : List PyVal)
  | vDict (m : List (String × PyVal))
  | vInst (defn : Option BundleDefinition) (attrs : List (String × PyVal))

/-- The admissible hint sources (`_HINT_SOURCES` in `dsl.py`). -/
def hintSources : List String := ["self", "field"]

/-- The default hint source (`_DEFAULT_HINT_SOURCE` in `dsl.py`). -/
def defaultHintSource : String := "self"

/-- Model of `_normalize_extension_value`: strip the value, reject an empty
result, then drop one leading dot.  (The emptiness test happens before the
dot is stripped, exactly as in the source.) -/
def _normalize_extension_value (extension : String) : Except BErr String :=
  let ext := pyStrip extension
  if ext = "" then
    .error (.metadataError "Extension values cannot be empty.")
  else if ext.data.head? = some '.' then
    .ok (String.mk ext.data.tail)
  else
    .ok ext

/-- Classification step of `_normalize_hint_entry` once the value/source pair
has been separated: mirrors the chain of `isinstance` checks on the value. -/
def classifyHintValue (entry_name : String) (hint_value : DynVal)
    (hint_source : String) : Except BErr (Option Hint) :=
  match hint_value with
  | .dHint h =>
    if hintSources.contains h.source then .ok (some h)
    else .error (.metadataError "Hint source must be one of ('self', 'field').")
  | .dCallable f => .ok (some ⟨.CALLABLE, .hvFn f, hint_source⟩)
  | .dStr s =>
    if s = "" then
      .error (.metadataError
        ("Metadata entry '" ++ entry_name ++ "' cannot be an empty string."))
    else
      let kind :=
        if strHasChar s lbrace ∧ strHasChar s rbrace then HintKind.TEMPLATE
        else HintKind.LITERAL
      .ok (some ⟨kind, .hvStr s, hint_source⟩)
  | _ =>
    .error (.metadataError
      ("Unsupported value for '" ++ entry_name ++ "' metadata entry."))

/-- Model of `_normalize_hint_entry`: classify a raw `name`/`prefix` metadata
value into a `Hint` (or no hint for `None`), validating the hint source. -/
def _normalize_hint_entry (entry_name : String) (value : DynVal) :
    Except BErr (Option Hint) :=
  match value with
  | .dNone => .ok none
  | value =>
    let step : Except BErr (DynVal × DynVal) :=
      match value with
      | .dTuple xs =>
        match xs with
        | [v, s] => .ok (v, s)
        | _ =>
          .error (.metadataError
            ("Metadata entry '" ++ entry_name ++ "' must be a value/source tuple."))
      | v => .ok (v, .dStr defaultHintSource)
    match step with
    | .error e => .error e
    | .ok (hint_value, hint_source0) =>
      let normalized_source : String :=
        match hint_source0 with
        | .dStr s => pyLower (pyStrip s)
        | _ => ""
      if hintSources.contains normalized_source then
        classifyHintValue entry_name hint_value normalized_source
      else
        .error (.metadataError
          ("Metadata entry '" ++ entry_name ++ "' source must be one of ('self', 'field')."))

/-- Model of `_normalize_metadata_layer`: normalize the entries of one
per-layer configuration mapping (`name`/`prefix` become `Hint`s, `extension`
is normalized, unknown keys pass through).  A non-string `extension` value
would raise `AttributeError` in Python; that is `pyTypeError` here. -/
def _normalize_metadata_layer : List (String × DynVal) →
    Except BErr (List (String × MetaOut))
  | [] => .ok []
  | (key, value) :: rest =>
    let this : Except BErr (List (String × MetaOut)) :=
      if key = "name" then
        match _normalize_hint_entry "name" value with
        | .error e => .error e
        | .ok (some h) => .ok [("name", .moHint h)]
        | .ok none => .ok []
      else if key = "extension" then
        match value with
        | .dStr s =>
          match _normalize_extension_value s with
          | .error e => .error e
          | .ok ext => .ok [("extension", .moExt ext)]
        | _ => .error (.pyTypeError "extension value is not a string")
      else if key = "prefix" then
        match _normalize_hint_entry "prefix" value with
        | .error e => .error e
        | .ok (some h) => .ok [("prefix", .moHint h)]
        | .ok none => .ok []
      else
        .ok [(key, .moPass value)]
    match this, _normalize_metadata_layer rest with
    | .error e, _ => .error e
    | .ok _, .error e => .error e
    | .ok here, .ok there => .ok (here ++ there)

end Pyarty


namespace Pyarty

/-! ### Annotation inspection (`pyarty/dsl.py`) -/

/-- Model of `_strip_annotated`: unwrap nested `Annotated[...]` layers. -/
def _strip_annotated : Ann → Ann
  | .annotated base => _strip_annotated base
  | a => a

/-- Model of `_is_bundle_class`: the candidate is a type carrying a
`__bundle_definition__`. -/
def _is_bundle_class : Ann → Bool
  | .bundleCls _ => true
  | _ => false

/-- Whether the annotation's origin belongs to `_DIR_COLLECTION_ORIGINS`
(`list`, `tuple`, `set`, `frozenset`, `Sequence`, `MutableSequence`, `Set`,
`Iterable`). -/
def isDirCollectionOrigin : Ann → Bool
  | .listA _ => true
  | .setA _ => true
  | .tupleA _ => true
  | _ => false

/-- Model of `typing.get_args` on the embedded annotations. -/
def annArgs : Ann → List Ann
  | .union args => args
  | .listA args => args
  | .setA args => args
  | .tupleA args => args
  | .dictA args => args
  | .dirA args => args
  | .fileA args => args
  | _ => []

/-- Model of `_extract_dir_payload`: strip `Annotated`, unwrap collection
levels, and return the referenced bundle class's definition, if any.  (The
Python loop strips `Annotated` each round before inspecting the candidate;
the recursion below performs the same unwrapping step by step.) -/
def _extract_dir_payload : Ann → Option BundleDefinition
  | .annotated base => _extract_dir_payload base
  | .bundleCls d => some d
  | .listA (inner :: _) => _extract_dir_payload inner
  | .setA (inner :: _) => _extract_dir_payload inner
  | .tupleA (inner :: _) => _extract_dir_payload inner
  | _ => none

/-- Model of `_dir_annotation_is_collection`: the single type argument of the
(stripped) annotation is itself a collection-origin generic. -/
def _dir_annotation_is_collection ( annotation : Ann) : Bool :=
  match annArgs (_strip_annotated annotation) with
  | [arg] => isDirCollectionOrigin (_strip_annotated arg)
  | _ => false

mutual
/-- Model of `_contains_dir`: whether a (generic) annotation transitively
mentions the `Dir[...]` marker.  (`get_origin` is `None` on primitives and
plain classes, so those return `false`; `Annotated` exposes its base through
`get_args`.) -/
def _contains_dir : Ann → Bool
  | .dirA _ => true
  | .union args => _contains_dir_list args
  | .listA args => _contains_dir_list args
  | .setA args => _contains_dir_list args
  | .tupleA args => _contains_dir_list args
  | .dictA args => _contains_dir_list args
  | .fileA args => _contains_dir_list args
  | .annotated base => _contains_dir base
  | _ => false

/-- Disjunction of `_contains_dir` over a list of type arguments. -/
def _contains_dir_list : List Ann → Bool
  | [] => false
  | a :: rest => _contains_dir a || _contains_dir_list rest
end

/-- Model of `_validate_dir_annotation`: a `Dir[...]` marker needs exactly one
argument resolving (through one collection level) to a bundle class.  The
Python messages also mention the owning class's name, which the model does
not carry. -/
def _validate_dir_annotation ( annotation : Ann) (field_name : String) :
    Except BErr Unit :=
  match annArgs annotation with
  | [arg] =>
    match _extract_dir_payload arg with
    | some _ => .ok ()
    | none =>
      .error ( .invalidAnn
        ("Dir annotation for field '" ++ field_name ++
         "' must reference another @bundle-decorated class."))
  | _ =>
    .error ( .invalidAnn
      ("Dir annotation for field '" ++ field_name ++
       "' requires exactly one argument."))

/-- Model of `_validate_file_annotation`: a `File[...]` marker needs exactly
one argument whose payload does not mention `Dir[...]`. -/
def _validate_file_annotation ( annotation : Ann) (field_name : String) :
    Except BErr Unit :=
  match annArgs annotation with
  | [payload] =>
    if _contains_dir payload then
      .error ( .invalidAnn
        ("File payload for field '" ++ field_name ++
         "' cannot contain Dir[...] annotations."))
    else
      .ok ()
  | _ =>
    .error ( .invalidAnn
      ("File annotation for field '" ++ field_name ++
       "' requires exactly one argument."))

/-- Model of `_classify_field`: decide `DIR`/`FILE`/`VALUE` from the stripped
annotation's origin, validating `Dir`/`File` markers. -/
def _classify_field ( annotation : Ann) (field_name : String) :
    Except BErr FieldKind :=
  match _strip_annotated annotation with
  | .dirA args =>
    match _validate_dir_annotation (.dirA args) field_name with
    | .error e => .error e
    | .ok _ => .ok .DIR
  | .fileA args =>
    match _validate_file_annotation (.fileA args) field_name with
    | .error e => .error e
    | .ok _ => .ok .FILE
  | _ => .ok .VALUE

/-- Model of `_top_layer`: the layer tag of the annotation's top-level
wrapper. -/
def _top_layer ( annotation : Ann) : Except BErr Layer :=
  match _strip_annotated annotation with
  | .dirA _ => .ok .LDir
  | .fileA _ => .ok .LFile
  | _ => .error ( .invalidAnn "Top-level annotation must be Dir or File")

/-! ### Extension inference (`pyarty/dsl.py`) -/

mutual
/-- Model of `_is_text_scalar`: `str`, `int`, `float`, or a non-empty union
of such scalars (after stripping `Annotated`, which the recursion below
performs layer by layer). -/
def _is_text_scalar : Ann → Bool
  | .annotated base => _is_text_scalar base
  | .aStr => true
  | .aInt => true
  | .aFloat => true
  | .union [] => false
  | .union (a :: rest) => _is_text_scalar_list (a :: rest)
  | _ => false

/-- Conjunction of `_is_text_scalar` over union members. -/
def _is_text_scalar_list : List Ann → Bool
  | [] => true
  | a :: rest => _is_text_scalar a && _is_text_scalar_list rest
end

/-- Model of `_is_mapping_type`: the bare `dict` class or a mapping-origin
generic. -/
def _is_mapping_type ( annotation : Ann) : Bool :=
  match _strip_annotated annotation with
  | .aDictBare => true
  | .dictA _ => true
  | _ => false

/-- Model of `_infer_extension_from_payload`: decide `txt`/`json`/`jsonl`
from the payload annotation's shape, or `none` when no inference applies. -/
def _infer_extension_from_payload (payload0 : Ann) : Option String :=
  let payload := _strip_annotated payload0
  if _is_text_scalar payload then some "txt"
  else if _is_mapping_type payload then some "json"
  else
    match payload with
    | .listA args =>
      match args with
      | [] => none
      | inner :: _ =>
        if _is_mapping_type inner then some "jsonl"
        else if _is_text_scalar inner then some "txt"
        else none
    | .dictA _ => some "json"
    | .union args =>
      if _is_text_scalar_list args then some "txt" else none
    | _ => none

/-- Model of `_infer_extension_from_file_annotation`: infer an extension from
the payload of a `File[...]` annotation and normalize it. -/
def _infer_extension_from_file_annotation ( annotation : Ann) :
    Except BErr (Option String) :=
  match _strip_annotated annotation with
  | .fileA args =>
    match args with
    | [] => .ok none
    | payload :: _ =>
      match _infer_extension_from_payload payload with
      | none => .ok none
      | some hinted =>
        match _normalize_extension_value hinted with
        | .error e => .error e
        | .ok ext => .ok (some ext)
  | _ => .ok none

/-- Model of `_metadata_has_extension`: some `File`-layer record carries an
`extension` key. -/
def _metadata_has_extension (metadata : List BundleMetadata) : Bool :=
  metadata.any (fun meta =>
    meta.layer = Layer.LFile && (meta.data.any (fun kv => kv.1 = "extension")))

/-- Python `dict.setdefault key value` on an association list: keep an
existing binding, otherwise append the new one. -/
def setdefaultAssoc (m : List (String × MetaOut)) (key : String)
    (value : MetaOut) : List (String × MetaOut) :=
  if m.any (fun kv => kv.1 = key) then m else m ++ [(key, value)]

/-- Model of `_maybe_attach_extension`: merge the inferred extension into the
metadata at `File`-layer index 0 without overwriting an explicit one. -/
def _maybe_attach_extension (metadata : List BundleMetadata)
    ( annotation : Ann) (infer_extension : Bool) :
    Except BErr (List BundleMetadata) :=
  if ¬ infer_extension then .ok metadata
  else if _metadata_has_extension metadata then .ok metadata
  else
    match _infer_extension_from_file_annotation annotation with
    | .error e => .error e
    | .ok none => .ok metadata
    | .ok (some inferred) =>
      match _normalize_extension_value inferred with
      | .error e => .error e
      | .ok normalized_ext =>
        match metadata with
        | first :: rest =>
          if first.layer = Layer.LFile then
            .ok ({ first with
                   data := setdefaultAssoc first.data "extension"
                     (.moExt normalized_ext) } :: rest)
          else
            .ok (⟨Layer.LFile, 0, [("extension", .moExt normalized_ext)]⟩ ::
                 first :: rest)
        | [] =>
          .ok [⟨Layer.LFile, 0, [("extension", .moExt normalized_ext)]⟩]

/-! ### Raw metadata normalization (`pyarty/dsl.py`) -/

/-- A key of a field's raw metadata mapping: the `Dir`/`File` marker classes
themselves, or a string (the strings `"Dir"`/`"File"` select the same layers
as the classes; every other string is a plain entry). -/
inductive MKey where
  | kDirCls
  | kFileCls
  | kStr (s : String)
deriving Repr, DecidableEq

/-- The layer selected by a metadata key, if any (the membership tests
`key in (Dir, Dir.__name__)` / `key in (File, File.__name__)`). -/
def MKey.layerOf : MKey → Option Layer
  | .kDirCls => some .LDir
  | .kStr "Dir" => some .LDir
  | .kFileCls => some .LFile
  | .kStr "File" => some .LFile
  | .kStr _ => none

/-- Python dict assignment on an association list: replace the value in place
when the key is present, otherwise append the binding. -/
def dictAssign {α : Type} [DecidableEq α] {β : Type}
    (m : List (α × β)) (key : α) (value : β) : List (α × β) :=
  if m.any (fun kv => kv.1 = key) then
    m.map (fun kv => if kv.1 = key then (key, value) else kv)
  else
    m ++ [(key, value)]

/-- The partition loop of `_normalize_metadata` together with
`_register_layer`: split raw entries (left to right) into plain keys and
layer-scoped keys, raising `BundleMetadataError` when the same layer is
assigned twice. -/
def partitionMetadataKeys (regular : List (String × DynVal))
    (layers : List (Layer × DynVal)) :
    List (MKey × DynVal) →
    Except BErr (List (String × DynVal) × List (Layer × DynVal))
  | [] => .ok (regular, layers)
  | (key, value) :: rest =>
    match key.layerOf with
    | some layer =>
      if layers.any (fun lv => lv.1 = layer) then
        .error (.metadataError
          ("Duplicate metadata assignment for layer " ++ layer.pyName ++
           ". Use a sequence of mappings instead."))
      else
        partitionMetadataKeys regular (layers ++ [(layer, value)]) rest
    | none =>
      match key with
      | .kStr s => partitionMetadataKeys (dictAssign regular s value) layers rest
      | _ => partitionMetadataKeys regular layers rest

/-- Model of `_expand_layer_metadata`: a mapping yields one record at index
0; a (non-string) sequence of mappings yields one record per element; any
other value is a `BundleMetadataError`.  (Python's tuples and lists are both
sequences.)  The Python messages also report the offending value's type,
which the model drops. -/
def _expand_layer_metadata (layer : Layer) (value : DynVal) :
    Except BErr (List BundleMetadata) :=
  match value with
  | .dMap m =>
    match _normalize_metadata_layer m with
    | .error e => .error e
    | .ok data => .ok [⟨layer, 0, data⟩]
  | .dList xs => expandSeq layer 0 xs
  | .dTuple xs => expandSeq layer 0 xs
  | _ =>
    .error (.metadataError
      ("Layer metadata for " ++ layer.pyName ++
       " must be a mapping or sequence of mappings."))
where
  /-- Element loop of `_expand_layer_metadata` over a layer-scoped sequence,
  with `index` tracking `enumerate`. -/
  expandSeq (layer : Layer) (index : Nat) :
      List DynVal → Except BErr (List BundleMetadata)
    | [] => .ok []
    | entry :: rest =>
      match entry with
      | .dMap m =>
        match _normalize_metadata_layer m with
        | .error e => .error e
        | .ok data =>
          match expandSeq layer (index + 1) rest with
          | .error e => .error e
          | .ok more => .ok (⟨layer, index, data⟩ :: more)
      | _ =>
        .error (.metadataError
          ("Layer metadata for " ++ layer.pyName ++ " must be mappings."))

/-- Expansion loop of `_normalize_metadata` over the registered layers, in
their registration order. -/
def expandLayers : List (Layer × DynVal) → Except BErr (List BundleMetadata)
  | [] => .ok []
  | (layer, value) :: rest =>
    match _expand_layer_metadata layer value with
    | .error e => .error e
    | .ok here =>
      match expandLayers rest with
      | .error e => .error e
      | .ok there => .ok (here ++ there)

/-- Model of `_normalize_metadata`: compute the root layer, partition raw
keys into plain and layer-scoped entries, normalize both groups, and attach
an inferred extension when requested. -/
def _normalize_metadata ( annotation : Ann) (metadata : List (MKey × DynVal))
    (infer_extension : Bool) : Except BErr (List BundleMetadata) :=
  match _top_layer annotation with
  | .error e => .error e
  | .ok root_layer =>
    match partitionMetadataKeys [] [] metadata with
    | .error e => .error e
    | .ok (regular_keys, layer_keys) =>
      let plainPart : Except BErr (List BundleMetadata) :=
        if regular_keys.isEmpty then .ok []
        else
          match _normalize_metadata_layer regular_keys with
          | .error e => .error e
          | .ok data => .ok [⟨root_layer, 0, data⟩]
      match plainPart with
      | .error e => .error e
      | .ok plain =>
        match expandLayers layer_keys with
        | .error e => .error e
        | .ok layerPart =>
          _maybe_attach_extension (plain ++ layerPart) annotation infer_extension

/-! ### Field declarations and definition building (`pyarty/dsl.py`) -/

/-- Model of `twig`: build the raw metadata mapping attached to a dataclass
field, normalizing the extension eagerly. -/
def twig (name : Option DynVal) (extension : Option String)
    (prefix_hint : Option DynVal) : Except BErr (List (MKey × DynVal)) :=
  let withName : List (MKey × DynVal) :=
    match name with
    | some v => [(.kStr "name", v)]
    | none => []
  match extension with
  | some e =>
    match _normalize_extension_value e with
    | .error err => .error err
    | .ok ext =>
      let m := withName ++ [(.kStr "extension", .dStr ext)]
      match prefix_hint with
      | some v => .ok (m ++ [(.kStr "prefix", v)])
      | none => .ok m
  | none =>
    match prefix_hint with
    | some v => .ok (withName ++ [(.kStr "prefix", v)])
    | none => .ok withName

/-- A dataclass field declaration as `_build_bundle_definition` consumes it:
the declared name, the (resolved) annotation, and the raw metadata mapping. -/
structure FieldDecl where
  name : String
  annotation : Ann
  raw_metadata : List (MKey × DynVal)

/-- Model of `_build_bundle_definition`: classify each declared field,
normalize its metadata (with extension inference for `File` fields), and
collect the resulting `BundleField`s. -/
def _build_bundle_definition (decls : List FieldDecl) :
    Except BErr BundleDefinition :=
  match buildFields decls with
  | .error e => .error e
  | .ok fs => .ok (BundleDefinition.mk fs)
where
  /-- Field loop of `_build_bundle_definition`. -/
  buildFields : List FieldDecl → Except BErr (List BundleField)
    | [] => .ok []
    | decl :: rest =>
      match _classify_field (FieldDecl.annotation decl) decl.name with
      | .error e => .error e
      | .ok kind =>
        let normalized : Except BErr (List BundleMetadata) :=
          if kind = FieldKind.DIR ∨ kind = FieldKind.FILE then
            _normalize_metadata (FieldDecl.annotation decl) decl.raw_metadata
              (kind = FieldKind.FILE)
          else
            .ok []
        match normalized with
        | .error e => .error e
        | .ok metadata =>
          let is_collection :=
            kind = FieldKind.DIR && _dir_annotation_is_collection (FieldDecl.annotation decl)
          match buildFields rest with
          | .error e => .error e
          | .ok more =>
            .ok (BundleField.mk decl.name kind (FieldDecl.annotation decl) metadata
                  is_collection :: more)

/-! ### JSON codec model (external primitive; see the file header) -/

/-- Spaces for JSON pretty-printing indentation. -/
def jsonSpaces (n : Nat) : String :=
  String.mk (List.replicate n ' ')

/-- Escape one character inside a JSON string literal (`ensure_ascii=False`:
non-ASCII characters pass through verbatim). -/
def jsonEscapeChar (c : Char) : String :=
  if c = '\\' then "\\\\"
  else if c = '"' then "\\\""
  else if c = '\n' then "\\n"
  else if c = '\t' then "\\t"
  else if c = '\r' then "\\r"
  else if c.toNat < 32 then
    let hex := Nat.toDigits 16 c.toNat
    "\\u" ++ String.mk (List.replicate (4 - hex.length) '0') ++ String.mk hex
  else
    String.mk [c]

/-- A JSON string literal for `s`. -/
def jsonQuote (s : String) : String :=
  "\"" ++ String.join (s.data.map jsonEscapeChar) ++ "\""

mutual
/-- Model of `json.dumps(v, indent=2, ensure_ascii=False)` (as used by
`json.dump` in the writer), at current indentation column `i`; `none` when
the value is not JSON-serializable (Python raises `TypeError`). -/
def jsonEncPretty (i : Nat) : PyVal → Option String
  | .vNone => some "null"
  | .vBool true => some "true"
  | .vBool false => some "false"
  | .vInt n => some (toString n)
  | .vStr s => some (jsonQuote s)
  | .vList [] => some "[]"
  | .vList (x :: xs) =>
    match jsonEncPrettyList (i + 2) (x :: xs) with
    | none => none
    | some items =>
      some ("[\n" ++ jsonSpaces (i + 2) ++
        String.intercalate (",\n" ++ jsonSpaces (i + 2)) items ++
        "\n" ++ jsonSpaces i ++ "]")
  | .vDict [] => some ("\x7b\x7d")
  | .vDict (p :: ps) =>
    match jsonEncPrettyDict (i + 2) (p :: ps) with
    | none => none
    | some items =>
      some ("\x7b\n" ++ jsonSpaces (i + 2) ++
        String.intercalate (",\n" ++ jsonSpaces (i + 2)) items ++
        "\n" ++ jsonSpaces i ++ "\x7d")
  | .vBytes _ => none
  | .vInst _ _ => none

/-- Pretty-encode each list element at indentation `i`. -/
def jsonEncPrettyList (i : Nat) : List PyVal → Option (List String)
  | [] => some []
  | x :: xs =>
    match jsonEncPretty i x, jsonEncPrettyList i xs with
    | some s, some ss => some (s :: ss)
    | _, _ => none

/-- Pretty-encode each `key: value` pair at indentation `i`. -/
def jsonEncPrettyDict (i : Nat) : List (String × PyVal) → Option (List String)
  | [] => some []
  | (k, v) :: ps =>
    match jsonEncPretty i v, jsonEncPrettyDict i ps with
    | some s, some ss => some ((jsonQuote k ++ ": " ++ s) :: ss)
    | _, _ => none
end

mutual
/-- Model of `json.dumps(v, ensure_ascii=False)` with default separators
(`", "` and `": "`), as used for `jsonl` rows. -/
def jsonEncCompact : PyVal → Option String
  | .vNone => some "null"
  | .vBool true => some "true"
  | .vBool false => some "false"
  | .vInt n => some (toString n)
  | .vStr s => some (jsonQuote s)
  | .vList xs =>
    match jsonEncCompactList xs with
    | none => none
    | some items => some ("[" ++ String.intercalate ", " items ++ "]")
  | .vDict ps =>
    match jsonEncCompactDict ps with
    | none => none
    | some items => some ("\x7b" ++ String.intercalate ", " items ++ "\x7d")
  | .vBytes _ => none
  | .vInst _ _ => none

/-- Compact-encode each list element. -/
def jsonEncCompactList : List PyVal → Option (List String)
  | [] => some []
  | x :: xs =>
    match jsonEncCompact x, jsonEncCompactList xs with
    | some s, some ss => some (s :: ss)
    | _, _ => none

/-- Compact-encode each `key: value` pair. -/
def jsonEncCompactDict : List (String × PyVal) → Option (List String)
  | [] => some []
  | (k, v) :: ps =>
    match jsonEncCompact v, jsonEncCompactDict ps with
    | some s, some ss => some ((jsonQuote k ++ ": " ++ s) :: ss)
    | _, _ => none
end

/-! ### Writer engine (`pyarty/writer.py`) -/

/-- Errors surfacing from `write_bundle`.  Constructors tagged `RenderError`
model that Python class; the others model built-in Python exceptions escaping
the writer. -/
inductive RenderErr where
  /-- `RenderError`: destination exists and is not empty without `overwrite`. -/
  | destinationNotEmpty
  /-- `RenderError`: the object written is not a bundle-decorated instance. -/
  | notBundle
  /-- `RenderError`: a directory field's child has no bundle definition. -/
  | dirChildNotBundle (field : String)
  /-- `RenderError`: a file field produced an empty name. -/
  | emptyFileName (field : String)
  /-- `RenderError`: a template placeholder was missing from the resolution
  context (`KeyError` caught and re-raised, naming the key). -/
  | missingTemplateVar (key : String) (field : String)
  /-- Uncaught `ValueError` escaping `str.format` on a malformed template. -/
  | formatError (field : String)
  /-- `RenderError`: a hint of an unknown kind (defensive branch). -/
  | unsupportedHintKind (field : String)
  /-- `RenderError`: a `jsonl` payload that is not an iterable of records. -/
  | jsonlPayloadNotIterable
  /-- `RenderError`: a payload unsupported for its extension. -/
  | unsupportedPayloadType
  /-- `TypeError` escaping `json.dump` on a non-serializable payload. -/
  | jsonEncodeError
  /-- `AttributeError` escaping `getattr` on a missing field value. -/
  | attributeMissing (field : String)
  /-- `OSError`/`NotADirectoryError`/`FileExistsError` from filesystem calls. -/
  | osError
  /-- Model artefact: traversal fuel exhausted (never occurs with fuel at
  least the instance depth). -/
  | outOfFuel
deriving Repr, DecidableEq

/-- A filesystem tree: a file with text content, or a directory with an
ordered list of named entries. -/
inductive FsTree where
  | file (content : String)
  | dir (entries : List (String × FsTree))

/-- Named entries of a directory tree (empty for files). -/
def FsTree.entriesOf : FsTree → List (String × FsTree)
  | .dir es => es
  | .file _ => []

/-- Model of `_metadata_for_layer`: the data of the first metadata record for
the requested layer, defaulting to an empty mapping. -/
def _metadata_for_layer (metadata : List BundleMetadata) (layer_type : Layer) :
    List (String × MetaOut) :=
  match metadata.find? (fun entry => entry.layer = layer_type) with
  | some entry => entry.data
  | none => []

/-- Fetch a `Hint` stored under `key` in a normalized metadata mapping
(`metadata.get(key)`; normalization only ever stores hints under `name` and
`prefix`). -/
def metaHint (data : List (String × MetaOut)) (key : String) : Option Hint :=
  match data.lookup key with
  | some (.moHint h) => some h
  | _ => none

/-- Fetch the extension stored in a normalized metadata mapping
(`metadata.get("extension")`). -/
def metaExtension (data : List (String × MetaOut)) : Option String :=
  match data.lookup "extension" with
  | some (.moExt s) => some s
  | _ => none

/-- Model of `_default_name`: the field name, suffixed with `_<index>` when an
index is present. -/
def _default_name (field_name : String) (index : Option Nat) : String :=
  match index with
  | none => field_name
  | some i => field_name ++ "_" ++ toString i

/-- Model of `_apply_prefix` (named with a suffix here for lexical reasons):
`str(Path(prefix) / name)`.  `Path`'s collapsing of duplicate separators is
not modelled (no claim exercises it). -/
def _apply_prefix_path (p : String) (name : String) : String :=
  p ++ "/" ++ name

/-- Model of `_context_from`: a mapping is its own context, an object
contributes `vars(obj)`, everything else yields an empty context. -/
def _context_from (source : PyVal) : List (String × PyVal) :=
  match source with
  | .vDict m => m
  | .vInst _ attrs => attrs
  | _ => []

mutual
/-- Model of Python `repr(value)` for the embedded values (string escaping
inside `repr` of a `str`, and the default `repr` of instances, are not
modelled precisely; no claim depends on them). -/
def pyReprOf : PyVal → String
  | .vNone => "None"
  | .vStr s => "'" ++ s ++ "'"
  | .vBytes s => "b'" ++ s ++ "'"
  | .vBool true => "True"
  | .vBool false => "False"
  | .vInt n => toString n
  | .vList xs => "[" ++ pyReprList xs ++ "]"
  | .vDict m => "\x7b" ++ pyReprDict m ++ "\x7d"
  | .vInst _ _ => "<object>"

/-- Comma-separated `repr`s of list elements. -/
def pyReprList : List PyVal → String
  | [] => ""
  | [x] => pyReprOf x
  | x :: y :: rest => pyReprOf x ++ ", " ++ pyReprList (y :: rest)

/-- Comma-separated `'key': repr` pairs of dict items. -/
def pyReprDict : List (String × PyVal) → String
  | [] => ""
  | [(k, v)] => "'" ++ k ++ "': " ++ pyReprOf v
  | (k, v) :: p :: rest =>
    "'" ++ k ++ "': " ++ pyReprOf v ++ ", " ++ pyReprDict (p :: rest)
end

/-- Model of `str(value)` for values rendered into templates: strings
verbatim, everything else via `repr`. -/
def pyStrOf : PyVal → String
  | .vStr s => s
  | v => pyReprOf v

/-- Errors from the model of `str.format`. -/
inductive FmtErr where
  /-- `KeyError` for a placeholder missing from the keyword mapping. -/
  | keyError (key : String)
  /-- `ValueError` for malformed template syntax. -/
  | valueError
deriving Repr, DecidableEq

/-- Consume characters up to the closing brace of a replacement field,
returning the field text and the remainder. -/
def takeFormatField : List Char → Option (List Char × List Char)
  | [] => none
  | c :: rest =>
    if c = rbrace then some ([], rest)
    else
      match takeFormatField rest with
      | none => none
      | some (f, after) => some (c :: f, after)

/-- The remainder returned by `takeFormatField` is strictly shorter than the
input. -/
theorem takeFormatField_shrinks :
    ∀ cs f after, takeFormatField cs = some (f, after) →
      after.length < cs.length := by
  intro cs
  induction cs with
  | nil => intro f after h; simp [takeFormatField] at h
  | cons c rest ih =>
    intro f after h
    simp only [takeFormatField] at h
    by_cases hc : c = rbrace
    · simp [hc] at h
      obtain ⟨h1, h2⟩ := h
      subst h2
      simp
    · simp [hc] at h
      match hr : takeFormatField rest with
      | none => rw [hr] at h; simp at h
      | some (f2, after2) =>
        rw [hr] at h
        simp at h
        obtain ⟨h1, h2⟩ := h
        subst h2
        have := ih f2 after2 hr
        simp
        omega

/-- The key looked up for a replacement field: the text before any `:` format
specifier (conversions and attribute access are not modelled; no claim uses
them). -/
def formatFieldKey (f : List Char) : String :=
  String.mk (f.takeWhile (fun c => c ≠ ':'))

/-- Fuel-indexed core of the `str.format` model (the fuel is initialised to
the template length plus one, which the scan never exhausts). -/
def pyFormatF (ctx : List (String × PyVal)) : Nat → List Char → Except FmtErr String
  | 0, _ => .error .valueError
  | _, [] => .ok ""
  | fuel + 1, c :: rest =>
    if c = lbrace then
      match rest with
      | c2 :: rest2 =>
        if c2 = lbrace then
          match pyFormatF ctx fuel rest2 with
          | .error e => .error e
          | .ok s => .ok (String.mk [lbrace] ++ s)
        else
          match takeFormatField (c2 :: rest2) with
          | none => .error .valueError
          | some (f, after) =>
            let key := formatFieldKey f
            match ctx.lookup key with
            | none => .error (.keyError key)
            | some v =>
              match pyFormatF ctx fuel after with
              | .error e => .error e
              | .ok s => .ok (pyStrOf v ++ s)
      | [] => .error .valueError
    else if c = rbrace then
      match rest with
      | c2 :: rest2 =>
        if c2 = rbrace then
          match pyFormatF ctx fuel rest2 with
          | .error e => .error e
          | .ok s => .ok (String.mk [rbrace] ++ s)
        else .error .valueError
      | [] => .error .valueError
    else
      match pyFormatF ctx fuel rest with
      | .error e => .error e
      | .ok s => .ok (String.mk [c] ++ s)

/-- Model of Python `str.format(**context)` over the embedded values:
substitute `\x7bname\x7d`-style placeholders, handling doubled-brace
escapes; a placeholder absent from the context raises `KeyError`. -/
def pyFormat (ctx : List (String × PyVal)) (cs : List Char) : Except FmtErr String :=
  pyFormatF ctx (cs.length + 1) cs

/-- Python `dict.setdefault` for the template context. -/
def ctxSetdefault (m : List (String × PyVal)) (key : String) (value : PyVal) :
    List (String × PyVal) :=
  if m.any (fun kv => kv.1 = key) then m else m ++ [(key, value)]

/-- Model of `_resolve_hint`: resolve an optional naming hint against the
owner/subject and optional index. -/
def _resolve_hint (hint : Option Hint) (owner : PyVal) (subject : PyVal)
    (index : Option Nat) (field_name : String) :
    Except RenderErr (Option String) :=
  match hint with
  | none => .ok none
  | some h =>
    let context := if h.source = "self" then owner else subject
    match h.kind with
    | .LITERAL =>
      match h.value with
      | .hvStr s => .ok (some s)
      | .hvFn _ => .ok (some "<callable>")
    | .TEMPLATE =>
      match h.value with
      | .hvFn _ => .error (.formatError field_name)
      | .hvStr tmpl =>
        let context_mapping :=
          match index with
          | some i => ctxSetdefault (_context_from context) "index" (.vInt i)
          | none => _context_from context
        match pyFormat context_mapping tmpl.data with
        | .ok s => .ok (some s)
        | .error (.keyError k) => .error (.missingTemplateVar k field_name)
        | .error .valueError => .error (.formatError field_name)
    | .CALLABLE =>
      match h.value with
      | .hvFn f => .ok (some (f index))
      | .hvStr _ => .error (.unsupportedHintKind field_name)

/-- Model of `_compute_name`: resolve the `name` hint for the field's layer,
fall back to the default naming rule, and prepend a resolved non-empty
`prefix` hint. -/
def _compute_name (field : BundleField) (owner : PyVal) (subject : PyVal)
    (index : Option Nat) : Except RenderErr String :=
  let layer := if field.kind = FieldKind.DIR then Layer.LDir else Layer.LFile
  let metadata := _metadata_for_layer field.metadata layer
  let name_hint := metaHint metadata "name"
  match _resolve_hint name_hint owner subject index field.name with
  | .error e => .error e
  | .ok resolved =>
    let name :=
      match resolved with
      | some n => n
      | none =>
        if field.kind = FieldKind.DIR ∧ field.is_collection ∧ index.isSome then
          field.name
        else
          _default_name field.name index
    match metaHint metadata "prefix" with
    | none => .ok name
    | some ph =>
      match _resolve_hint (some ph) owner subject index field.name with
      | .error e => .error e
      | .ok (some p) =>
        if p = "" then .ok name else .ok (_apply_prefix_path p name)
      | .ok none => .ok name

/-- Model of `_iter_dir_entries`: `None` yields nothing, a non-string
iterable yields indexed elements (a dict yields its keys), anything else is a
single unindexed entry. -/
def _iter_dir_entries (value : PyVal) : List (Option Nat × PyVal) :=
  match value with
  | .vNone => []
  | .vList xs => (xs.enum).map (fun p => (some p.1, p.2))
  | .vDict m => ((m.map (fun kv => PyVal.vStr kv.1)).enum).map
      (fun p => (some p.1, p.2))
  | v => [(none, v)]

/-- Model of `getattr(instance, field.name)`: attribute lookup on the
instance's attribute dictionary. -/
def getattrPy (inst : PyVal) (name : String) : Option PyVal :=
  match inst with
  | .vInst _ attrs => attrs.lookup name
  | _ => none

/-- Model of `_write_payload` reduced to producing the written text: bytes
and strings verbatim, `json` via the pretty encoder, `jsonl` one compact row
per line.  The byte-stream (`payload.read()`) branch is not modelled (methods
are not representable; no claim reaches it). -/
def _write_payload (payload : PyVal) (extension : Option String) :
    Except RenderErr String :=
  match payload with
  | .vBytes b => .ok b
  | .vStr s => .ok s
  | payload =>
    if extension = some "json" then
      match jsonEncPretty 0 payload with
      | some s => .ok s
      | none => .error .jsonEncodeError
    else if extension = some "jsonl" then
      match payload with
      | .vList rows =>
        match rowsJoin rows with
        | some s => .ok s
        | none => .error .jsonEncodeError
      | .vDict m =>
        match rowsJoin (m.map (fun kv => PyVal.vStr kv.1)) with
        | some s => .ok s
        | none => .error .jsonEncodeError
      | _ => .error .jsonlPayloadNotIterable
    else
      .error .unsupportedPayloadType
where
  /-- One `json.dumps(row)` plus newline per row. -/
  rowsJoin : List PyVal → Option String
    | [] => some ""
    | row :: rest =>
      match jsonEncCompact row, rowsJoin rest with
      | some s, some more => some (s ++ "\n" ++ more)
      | _, _ => none

/-- Association update on directory entries: replace the named entry in
place, or append it. -/
def fsSet (entries : List (String × FsTree)) (name : String) (t : FsTree) :
    List (String × FsTree) :=
  if entries.any (fun kv => kv.1 = name) then
    entries.map (fun kv => if kv.1 = name then (name, t) else kv)
  else
    entries ++ [(name, t)]

/-- Model of `Path.mkdir(parents=True, exist_ok=True)` inside a directory's
entry list; an existing file along the path is `OSError`. -/
def fsMkdirp (entries : List (String × FsTree)) :
    List String → Except RenderErr (List (String × FsTree))
  | [] => .ok entries
  | seg :: rest =>
    match entries.lookup seg with
    | some (.dir sub) =>
      match fsMkdirp sub rest with
      | .error e => .error e
      | .ok sub' => .ok (fsSet entries seg (.dir sub'))
    | some (.file _) => .error .osError
    | none =>
      match fsMkdirp [] rest with
      | .error e => .error e
      | .ok sub' => .ok (fsSet entries seg (.dir sub'))

/-- Write a file at a (non-empty) relative path inside a directory's entry
list, creating intermediate directories; an existing directory at the final
segment, or a file along the way, is `OSError`. -/
def fsWriteFileAt (entries : List (String × FsTree)) (path : List String)
    (content : String) : Except RenderErr (List (String × FsTree)) :=
  match path with
  | [] => .error .osError
  | [name] =>
    match entries.lookup name with
    | some (.dir _) => .error .osError
    | _ => .ok (fsSet entries name (.file content))
  | seg :: rest =>
    match entries.lookup seg with
    | some (.dir sub) =>
      match fsWriteFileAt sub rest content with
      | .error e => .error e
      | .ok sub' => .ok (fsSet entries seg (.dir sub'))
    | some (.file _) => .error .osError
    | none =>
      match fsWriteFileAt [] rest content with
      | .error e => .error e
      | .ok sub' => .ok (fsSet entries seg (.dir sub'))

/-- Run a rendering continuation on the subdirectory at `path` (which exists
after `fsMkdirp`), threading partial writes out even on error. -/
def fsRenderAt (entries : List (String × FsTree)) (path : List String)
    (k : List (String × FsTree) → Option RenderErr × List (String × FsTree)) :
    Option RenderErr × List (String × FsTree) :=
  match path with
  | [] => k entries
  | seg :: rest =>
    match entries.lookup seg with
    | some (.dir sub) =>
      let r := fsRenderAt sub rest k
      (r.1, fsSet entries seg (.dir r.2))
    | some (.file _) => (some .osError, entries)
    | none =>
      let r := fsRenderAt [] rest k
      (r.1, fsSet entries seg (.dir r.2))

/-- Split a computed name into path segments (a resolved prefix joins path
segments with `/`); empty segments are dropped as `Path` would. -/
def pathSegs (name : String) : List String :=
  (strSplitOnChar name '/').filter (fun s => s ≠ "")

/-- The `(index, child)` loop of `_render_dir_field`: compute each child's
placement name, create the directory, and recurse via `recur` into the
child's own definition.  (The directory is created before the child's
definition is checked, exactly as in the source.) -/
def renderDirEntryLoop
    (recur : BundleDefinition → PyVal → List (String × FsTree) →
      Option RenderErr × List (String × FsTree))
    (field : BundleField) (owner : PyVal)
    (entries : List (String × FsTree)) :
    List (Option Nat × PyVal) → Option RenderErr × List (String × FsTree)
  | [] => (none, entries)
  | (index, child) :: rest =>
    match _compute_name field owner child index with
    | .error e => (some e, entries)
    | .ok name =>
      match fsMkdirp entries (pathSegs name) with
      | .error e => (some e, entries)
      | .ok entries1 =>
        match child with
        | .vInst (some child_def) _ =>
          let r := fsRenderAt entries1 (pathSegs name) (recur child_def child)
          match r.1 with
          | some e => (some e, r.2)
          | none => renderDirEntryLoop recur field owner r.2 rest
        | _ => (some (.dirChildNotBundle field.name), entries1)

/-- Model of `_render_dir_field`: expand the value into `(index, child)`
pairs and render each child into its computed sub-directory. -/
def _render_dir_field
    (recur : BundleDefinition → PyVal → List (String × FsTree) →
      Option RenderErr × List (String × FsTree))
    (field : BundleField) (value : PyVal) (owner : PyVal)
    (entries : List (String × FsTree)) :
    Option RenderErr × List (String × FsTree) :=
  renderDirEntryLoop recur field owner entries (_iter_dir_entries value)

/-- Model of `_render_file_field`: compute the placement name, reject an
empty one, append the extension, create parent directories and write the
encoded payload. -/
def _render_file_field (field : BundleField) (value : PyVal) (owner : PyVal)
    (entries : List (String × FsTree)) :
    Option RenderErr × List (String × FsTree) :=
  let metadata := _metadata_for_layer field.metadata Layer.LFile
  let extension := metaExtension metadata
  match _compute_name field owner value none with
  | .error e => (some e, entries)
  | .ok name =>
    if name = "" then (some (.emptyFileName field.name), entries)
    else
      let filename :=
        match extension with
        | some e => if e = "" then name else name ++ "." ++ e
        | none => name
      match _write_payload value extension with
      | .error e => (some e, entries)
      | .ok content =>
        match fsWriteFileAt entries (pathSegs filename) content with
        | .error e => (some e, entries)
        | .ok entries' => (none, entries')

/-- Python's `value is None` test. -/
def isNonePy : PyVal → Bool
  | .vNone => true
  | _ => false

/-- The field loop of `_render_fields`: skip `None` values and `VALUE`
fields, render `DIR` and `FILE` fields in declaration order. -/
def renderFieldLoop
    (recur : BundleDefinition → PyVal → List (String × FsTree) →
      Option RenderErr × List (String × FsTree))
    (inst : PyVal) (entries : List (String × FsTree)) :
    List BundleField → Option RenderErr × List (String × FsTree)
  | [] => (none, entries)
  | field :: rest =>
    match getattrPy inst field.name with
    | none => (some (.attributeMissing field.name), entries)
    | some value =>
      if isNonePy value then renderFieldLoop recur inst entries rest
      else
        let r :=
          match field.kind with
          | .DIR => _render_dir_field recur field value inst entries
          | .FILE => _render_file_field field value inst entries
          | .VALUE => (none, entries)
        match r.1 with
        | some e => (some e, r.2)
        | none => renderFieldLoop recur inst r.2 rest

/-- Model of `_render_fields` with explicit traversal fuel (decremented at
each directory-field recursion). -/
def _render_fields (fuel : Nat) (definition : BundleDefinition)
    (inst : PyVal) (entries : List (String × FsTree)) :
    Option RenderErr × List (String × FsTree) :=
  match fuel with
  | 0 => (some .outOfFuel, entries)
  | fuel + 1 =>
    renderFieldLoop (fun d i es => _render_fields fuel d i es)
      inst entries definition.fields

/-- The state of the destination path before writing. -/
inductive Dest where
  | absent
  | presentDir (entries : List (String × FsTree))
  | presentFile (content : String)

/-- Result of `write_bundle`: an error together with the destination state it
left behind, or the rendered destination directory. -/
inductive WriteResult where
  | failed (e : RenderErr) (state : Dest)
  | succeeded (tree : FsTree)

/-- Model of `write_bundle`: guard the destination, create it when absent,
check the instance's bundle definition and render all fields.  When the
destination exists as a file the guard raises `NotADirectoryError` unless
`overwrite` is set; the (degenerate, claim-irrelevant) rendering over an
existing file destination is collapsed to `OSError`. -/
def write_bundle (fuel : Nat) (bundle : PyVal) (dest : Dest)
    (overwrite : Bool) : WriteResult :=
  let proceed : List (String × FsTree) → Dest → WriteResult :=
    fun base created =>
      match bundle with
      | .vInst (some definition) _ =>
        let r := _render_fields fuel definition bundle base
        match r.1 with
        | some e => .failed e (.presentDir r.2)
        | none => .succeeded (.dir r.2)
      | _ => .failed .notBundle created
  match dest with
  | .presentFile c =>
    if ¬ overwrite then .failed .osError (.presentFile c)
    else .failed .osError (.presentFile c)
  | .presentDir es =>
    if ¬ overwrite ∧ ¬ es.isEmpty then .failed .destinationNotEmpty dest
    else proceed es dest
  | .absent => proceed [] (.presentDir [])

/-! ### JSON decoding model (external primitive; see the file header) -/

/-- Drop leading JSON whitespace. -/
def jsonSkipWs (cs : List Char) : List Char :=
  cs.dropWhile (fun c => c = ' ' || c = '\t' || c = '\n' || c = '\r')

/-- Parse the body of a JSON string literal after the opening quote,
returning the content and the remainder after the closing quote.  `\u`
escapes are outside the model. -/
def jsonParseStringBody : List Char → Option (List Char × List Char)
  | [] => none
  | c :: rest =>
    if c = '"' then some ([], rest)
    else if c = '\\' then
      match rest with
      | [] => none
      | e :: rest2 =>
        let unescaped : Option Char :=
          if e = '"' then some '"'
          else if e = '\\' then some '\\'
          else if e = '/' then some '/'
          else if e = 'n' then some '\n'
          else if e = 't' then some '\t'
          else if e = 'r' then some '\r'
          else if e = 'b' then some (Char.ofNat 8)
          else if e = 'f' then some (Char.ofNat 12)
          else none
        match unescaped with
        | none => none
        | some u =>
          match jsonParseStringBody rest2 with
          | none => none
          | some (content, after) => some (u :: content, after)
    else
      match jsonParseStringBody rest with
      | none => none
      | some (content, after) => some (c :: content, after)

/-- Decimal digits to a natural number (the value of `int(digits)`). -/
def jsonDigitsToNat : List Char → Nat → Nat
  | [], acc => acc
  | c :: rest, acc => jsonDigitsToNat rest (acc * 10 + (c.toNat - 48))

/-- Parse a JSON integer literal (an optional minus sign and digits; a
following `.`, `e` or `E` would be a float, which is outside the model). -/
def jsonParseInt (cs : List Char) : Option (Int × List Char) :=
  let (sign, cs1) : Int × List Char :=
    match cs with
    | '-' :: rest => (-1, rest)
    | _ => (1, cs)
  let digits := cs1.takeWhile Char.isDigit
  let rest := cs1.dropWhile Char.isDigit
  if digits.isEmpty then none
  else
    match rest with
    | c :: _ =>
      if c = '.' || c = 'e' || c = 'E' then none
      else some (sign * Int.ofNat (jsonDigitsToNat digits 0), rest)
    | [] => some (sign * Int.ofNat (jsonDigitsToNat digits 0), rest)

mutual
/-- Fuel-indexed JSON value parser: parse one value, returning it and the
remaining input. -/
def jsonParseValue : Nat → List Char → Option (PyVal × List Char)
  | 0, _ => none
  | fuel + 1, cs0 =>
    let cs := jsonSkipWs cs0
    match cs with
    | [] => none
    | c :: rest =>
      if c = 'n' then
        match rest with
        | 'u' :: 'l' :: 'l' :: after => some (.vNone, after)
        | _ => none
      else if c = 't' then
        match rest with
        | 'r' :: 'u' :: 'e' :: after => some (.vBool true, after)
        | _ => none
      else if c = 'f' then
        match rest with
        | 'a' :: 'l' :: 's' :: 'e' :: after => some (.vBool false, after)
        | _ => none
      else if c = '"' then
        match jsonParseStringBody rest with
        | none => none
        | some (content, after) => some (.vStr (String.mk content), after)
      else if c = '[' then
        let afterWs := jsonSkipWs rest
        match afterWs with
        | ']' :: after => some (.vList [], after)
        | _ =>
          match jsonParseElems fuel afterWs with
          | none => none
          | some (elems, after) => some (.vList elems, after)
      else if c = Char.ofNat 123 then
        let afterWs := jsonSkipWs rest
        match afterWs with
        | c2 :: after =>
          if c2 = Char.ofNat 125 then some (.vDict [], after)
          else
            match jsonParseMembers fuel (c2 :: after) with
            | none => none
            | some (pairs, after2) => some (.vDict pairs, after2)
        | [] => none
      else
        match jsonParseInt cs with
        | none => none
        | some (n, after) => some (.vInt n, after)

/-- Parse comma-separated array elements up to the closing bracket (the
shared fuel bounds the iteration). -/
def jsonParseElems : Nat → List Char → Option (List PyVal × List Char)
  | 0, _ => none
  | fuel + 1, cs =>
    match jsonParseValue fuel cs with
    | none => none
    | some (v, after) =>
      match jsonSkipWs after with
      | ']' :: after2 => some ([v], after2)
      | ',' :: after2 =>
        match jsonParseElems fuel after2 with
        | none => none
        | some (vs, after3) => some (v :: vs, after3)
      | _ => none

/-- Parse comma-separated object members up to the closing brace. -/
def jsonParseMembers : Nat → List Char →
    Option (List (String × PyVal) × List Char)
  | 0, _ => none
  | fuel + 1, cs =>
    match jsonSkipWs cs with
    | q :: rest =>
      if q = '"' then
        match jsonParseStringBody rest with
        | none => none
        | some (key, afterKey) =>
          match jsonSkipWs afterKey with
          | ':' :: afterColon =>
            match jsonParseValue fuel afterColon with
            | none => none
            | some (v, after) =>
              match jsonSkipWs after with
              | c :: after2 =>
                if c = Char.ofNat 125 then
                  some ([(String.mk key, v)], after2)
                else if c = ',' then
                  match jsonParseMembers fuel after2 with
                  | none => none
                  | some (ps, after3) => some ((String.mk key, v) :: ps, after3)
                else none
              | [] => none
          | _ => none
      else none
    | [] => none

end

/-- Model of `json.loads` over the embedded JSON fragment: parse one value
and require only whitespace to follow. -/
def decodeJson (s : String) : Option PyVal :=
  match jsonParseValue (2 * s.length + 2) s.data with
  | none => none
  | some (v, rest) =>
    if (jsonSkipWs rest).isEmpty then some v else none

/-! ### Reader engine (`pyarty/reader.py`) -/

/-- Errors raised by `infer_bundle_from_directory`. -/
inductive ReadErr where
  /-- `FileNotFoundError`: the root path is missing or not a directory. -/
  | notFound
  /-- `ValueError` `"Unsupported file extension ..."`, carrying the entry's
  (original) suffix and name. -/
  | unsupportedExtension (suffix : String) (entry : String)
  /-- `json.JSONDecodeError` escaping from payload decoding. -/
  | jsonDecodeError
  /-- An error raised while the synthesized dataclass is registered through
  `bundle(...)` (definition building). -/
  | buildError (e : BErr)
  /-- Model artefact: traversal fuel exhausted (never occurs with fuel at
  least the tree depth). -/
  | outOfFuel
deriving Repr, DecidableEq

/-- The recognized extensions (`SUPPORTED_EXTENSIONS` in `reader.py`). -/
def SUPPORTED_EXTENSIONS : List String := [".txt", ".json", ".jsonl"]

/-- Index of the last occurrence of `c` in `cs`, if any. -/
def lastIdxOf (cs : List Char) (c : Char) : Option Nat :=
  let rec go (i : Nat) (acc : Option Nat) : List Char → Option Nat
    | [] => acc
    | x :: xs => go (i + 1) (if x = c then some i else acc) xs
  go 0 none cs

/-- Model of `pathlib.PurePath.suffix`: the final `.`-separated component,
empty when the dot is leading or trailing. -/
def pathSuffix (name : String) : String :=
  match lastIdxOf name.data '.' with
  | some i =>
    if 0 < i ∧ i < name.data.length - 1 then String.mk (name.data.drop i)
    else ""
  | none => ""

/-- Model of `pathlib.PurePath.stem`: the name with its suffix removed. -/
def pathStem (name : String) : String :=
  match lastIdxOf name.data '.' with
  | some i =>
    if 0 < i ∧ i < name.data.length - 1 then String.mk (name.data.take i)
    else name
  | none => name

/-- Model of `str.lstrip(".")`: drop all leading dots. -/
def lstripDots (s : String) : String :=
  String.mk (s.data.dropWhile (fun c => c = '.'))

/-- Whether an entry is a regular file (`Path.is_file`). -/
def isFileEntry (t : FsTree) : Bool :=
  match t with
  | .file _ => true
  | .dir _ => false

/-- The sort key ordering of `sorted(path.iterdir(), key=lambda p:
(p.is_file(), p.name))`: directories before files, then by name. -/
def entryLe (a b : String × FsTree) : Bool :=
  let fa := isFileEntry a.2
  let fb := isFileEntry b.2
  (fa = fb && ¬ strLtB b.1 a.1) || (fa = false && fb = true)

/-- Insert an entry into a sorted entry list. -/
def insertEntry (x : String × FsTree) :
    List (String × FsTree) → List (String × FsTree)
  | [] => [x]
  | y :: ys => if entryLe x y then x :: y :: ys else y :: insertEntry x ys

/-- Sort directory entries as the reader lists them. -/
def sortEntries (es : List (String × FsTree)) : List (String × FsTree) :=
  es.foldr insertEntry []

/-- Python keywords that are entirely lowercase (`keyword.iskeyword` after
the reader lower-cases its candidate). -/
def pyLowerKeywords : List String :=
  ["and", "as", "assert", "async", "await", "break", "class", "continue",
   "def", "del", "elif", "else", "except", "finally", "for", "from",
   "global", "if", "import", "in", "is", "lambda", "nonlocal", "not", "or",
   "pass", "raise", "return", "try", "while", "with", "yield"]

/-- ASCII alphanumeric test (`[0-9a-zA-Z]`). -/
def isAsciiAlnum (c : Char) : Bool :=
  ('0' ≤ c ∧ c ≤ '9') || ('a' ≤ c ∧ c ≤ 'z') || ('A' ≤ c ∧ c ≤ 'Z')

mutual
/-- Collapse every run of non-alphanumeric characters into a single `_`
(the substitution `re.sub("[^0-9a-zA-Z]+", "_", value)`). -/
def collapseNonAlnum : List Char → List Char
  | [] => []
  | c :: rest =>
    if isAsciiAlnum c then c :: collapseNonAlnum rest
    else '_' :: skipNonAlnum rest

/-- Skip the remainder of a non-alphanumeric run. -/
def skipNonAlnum : List Char → List Char
  | [] => []
  | c :: rest =>
    if isAsciiAlnum c then c :: collapseNonAlnum rest
    else skipNonAlnum rest
end

/-- Model of `str.strip("_")`. -/
def stripUnderscores (cs : List Char) : List Char :=
  ((cs.dropWhile (fun c => c = '_')).reverse.dropWhile (fun c => c = '_')).reverse

/-- Insert `_` between a lowercase/digit character and a following uppercase
character (the substitution `re.sub("([a-z0-9])([A-Z])", ...)`; the matched
classes are disjoint, so the regex's non-overlapping scan equals this
pairwise insertion). -/
def insertCamelBreaks : List Char → List Char
  | [] => []
  | [c] => [c]
  | c :: d :: rest =>
    if (('a' ≤ c ∧ c ≤ 'z') || ('0' ≤ c ∧ c ≤ '9')) ∧ ('A' ≤ d ∧ d ≤ 'Z') then
      c :: '_' :: insertCamelBreaks (d :: rest)
    else
      c :: insertCamelBreaks (d :: rest)

/-- Model of `_snake_case`: sanitize an entry name into a Python
identifier. -/
def _snake_case (value : String) : String :=
  let step1 := stripUnderscores (collapseNonAlnum value.data)
  let step2 := (insertCamelBreaks step1).map pyLowerChar
  let lowered := if step2.isEmpty then "node" else String.mk step2
  let lowered :=
    if lowered.data.head?.elim false Char.isDigit then "n_" ++ lowered
    else lowered
  if pyLowerKeywords.contains lowered then lowered ++ "_" else lowered

/-- Model of `_unique_field_name`: append `_2`, `_3`, … until the candidate
is unused.  (The loop tries successive counters; by pigeonhole a free one is
found within `existing.length + 1` attempts.) -/
def _unique_field_name (existing : List String) (candidate : String) : String :=
  if ¬ existing.contains candidate then candidate
  else
    match (List.range (existing.length + 1)).findSome? (fun k =>
      let c := candidate ++ "_" ++ toString (k + 2)
      if existing.contains c then none else some c) with
    | some c => c
    | none => candidate

/-- Model of `_BundleBuilder._annotation_for_json_value`: the declared
payload annotation for a decoded JSON value. -/
def _annotation_for_json_value (value : PyVal) : Ann :=
  match value with
  | .vDict _ => .dictA [.aStr, .aAnyT]
  | .vList _ => .listA [.aAnyT]
  | .vBool _ => .aBool
  | .vInt _ => .aInt
  | .vNone => .aAnyT
  | _ => .aStr

/-- Model of `_BundleBuilder._annotation_for_jsonl`: the element annotation
for a decoded JSON-lines payload. -/
def _annotation_for_jsonl (items : List PyVal) : Ann :=
  match items with
  | [] => .dictA [.aStr, .aAnyT]
  | first :: _ => _annotation_for_json_value first

/-- The non-blank, `\n`/`\r`-stripped lines of a `jsonl` payload (Python
iterates the file's lines, `rstrip`s each and skips empties). -/
def jsonlLines (content : String) : List String :=
  ((strSplitOnChar content '\n').map
    (fun line => pyRstripChars line ['\n', '\r'])).filter (fun l => l ≠ "")

/-- Decode every JSON-lines row. -/
def decodeJsonlRows : List String → Option (List PyVal)
  | [] => some []
  | line :: rest =>
    match decodeJson line, decodeJsonlRows rest with
    | some v, some vs => some (v :: vs)
    | _, _ => none

/-- Model of `_BundleBuilder._build_file`: decode a file entry's payload and
synthesize its annotation (`suffix` is already lower-cased by the caller). -/
def _build_file (suffix : String) (content : String) :
    Except ReadErr (Ann × PyVal) :=
  if suffix = ".txt" then
    .ok (.fileA [.aStr], .vStr content)
  else if suffix = ".json" then
    match decodeJson content with
    | none => .error .jsonDecodeError
    | some payload => .ok (.fileA [_annotation_for_json_value payload], payload)
  else if suffix = ".jsonl" then
    match decodeJsonlRows (jsonlLines content) with
    | none => .error .jsonDecodeError
    | some payload_list =>
      .ok (.fileA [.listA [_annotation_for_jsonl payload_list]],
           .vList payload_list)
  else
    .error (.unsupportedExtension suffix suffix)

/-- The entry loop of `_BundleBuilder._build_dir`: walk the sorted entries,
recursing into sub-directories through `recur`, and accumulate the field
declarations and the instance's keyword arguments.  (Schema emission, class
naming and the per-path caches of `_BundleBuilder` are omitted: no claim
mentions synthesized type names or the emitted schema, and on a tree-shaped
input the caches never hit.) -/
def buildEntriesLoop
    (recur : List (String × FsTree) → Except ReadErr (BundleDefinition × PyVal))
    (used : List String) :
    List (String × FsTree) →
    Except ReadErr (List FieldDecl × List (String × PyVal))
  | [] => .ok ([], [])
  | (entryName, entry) :: rest =>
    match entry with
    | .dir sub =>
      match recur sub with
      | .error e => .error e
      | .ok (child_cls, child_instance) =>
        let field_name := _unique_field_name used (_snake_case entryName)
        match twig (some (.dStr entryName)) none none with
        | .error e => .error (.buildError e)
        | .ok raw =>
          match buildEntriesLoop recur (used ++ [field_name]) rest with
          | .error e => .error e
          | .ok (decls, kwargs) =>
            .ok (⟨field_name, .dirA [.bundleCls child_cls], raw⟩ :: decls,
                 (field_name, child_instance) :: kwargs)
    | .file content =>
      let suffix := pyLower (pathSuffix entryName)
      if ¬ SUPPORTED_EXTENSIONS.contains suffix then
        .error (.unsupportedExtension (pathSuffix entryName) entryName)
      else
        match _build_file suffix content with
        | .error e => .error e
        | .ok ( annotation, value) =>
          let field_name := _unique_field_name used (_snake_case (pathStem entryName))
          match twig (some (.dStr (pathStem entryName)))
              (some (lstripDots suffix)) none with
          | .error e => .error (.buildError e)
          | .ok raw =>
            match buildEntriesLoop recur (used ++ [field_name]) rest with
            | .error e => .error e
            | .ok (decls, kwargs) =>
              .ok (⟨field_name, annotation, raw⟩ :: decls,
                   (field_name, value) :: kwargs)

/-- Model of `_BundleBuilder._build_dir` (fuel-indexed): sort the entries,
build each field, then register the synthesized dataclass through
`bundle(...)` (that is, `_build_bundle_definition`) and construct the
instance. -/
def _build_dir (fuel : Nat) (entries : List (String × FsTree)) :
    Except ReadErr (BundleDefinition × PyVal) :=
  match fuel with
  | 0 => .error .outOfFuel
  | fuel + 1 =>
    match buildEntriesLoop (fun sub => _build_dir fuel sub) []
        (sortEntries entries) with
    | .error e => .error e
    | .ok (decls, kwargs) =>
      match _build_bundle_definition decls with
      | .error e => .error (.buildError e)
      | .ok defn => .ok (defn, .vInst (some defn) kwargs)

/-- Model of `infer_bundle_from_directory` (fuel-indexed): require an
existing directory, then build the bundle tree bottom-up.  The returned pair
is the synthesized root class (its definition) and the root instance; the
emitted JSON-Schema document is not modelled (no claim mentions it). -/
def infer_bundle_from_directory (fuel : Nat) (dest : Dest) :
    Except ReadErr (BundleDefinition × PyVal) :=
  match dest with
  | .absent => .error .notFound
  | .presentFile _ => .error .notFound
  | .presentDir entries => _build_dir fuel entries

/-! ### Concrete fixtures used by claim theorems -/

/-- Declarations of a one-file bundle (`payload: File[str]`), as the
`ListDirChild` test class declares it. -/
def c2ChildDecls : List FieldDecl := [⟨"payload", .fileA [.aStr], []⟩]

/-- The built definition of the one-file bundle. -/
def c2ChildDefn : BundleDefinition :=
  match _build_bundle_definition c2ChildDecls with
  | .ok d => d
  | .error _ => .mk []

/-- Declarations of a bundle with one collection field
(`runs: Dir[List[child]]`) and no metadata. -/
def c2RootDecls : List FieldDecl :=
  [⟨"runs", .dirA [.listA [.bundleCls c2ChildDefn]], []⟩]

/-- The built definition of the collection bundle. -/
def c2RootDefn : BundleDefinition :=
  match _build_bundle_definition c2RootDecls with
  | .ok d => d
  | .error _ => .mk []

/-- A child instance with the given payload. -/
def c2Child (s : String) : PyVal :=
  .vInst (some c2ChildDefn) [("payload", .vStr s)]

/-- A root instance whose collection field holds three children. -/
def c2Inst : PyVal :=
  .vInst (some c2RootDefn)
    [("runs", .vList [c2Child "a", c2Child "b", c2Child "c"])]

/-- The collection field of the built definition. -/
def c2RunsField : BundleField :=
  match c2RootDefn.fields with
  | f :: _ => f
  | [] => .mk "" .VALUE .otherCls [] false

/-! ### C9 -/

/-- C9: counterexample.  The claim states that extension normalization
rejects every input whose stripped result is empty, in particular `"."`.
The source checks emptiness before stripping the leading dot, so `"."`
yields the empty extension `""` without raising. -/
theorem C9_counterexample : _normalize_extension_value "." = .ok "" := rfl

/-- C9 (amended): extension normalization raises `BundleMetadataError`
exactly when the whitespace-stripped input is empty; otherwise it strips one
leading `.` — so `"."` yields the empty extension `""` rather than being
rejected. -/
theorem C9_amended :
    (∀ s, (∃ e, _normalize_extension_value s = .error e) ↔ pyStrip s = "") ∧
    _normalize_extension_value "." = .ok "" ∧
    (∀ s c cs, (pyStrip s).data = '.' :: c :: cs →
       _normalize_extension_value s = .ok (String.mk (c :: cs))) ∧
    (∀ s, pyStrip s ≠ "" → (pyStrip s).data.head? ≠ some '.' →
       _normalize_extension_value s = .ok (pyStrip s)) := by
  refine ⟨?_, rfl, ?_, ?_⟩
  · intro s
    constructor
    · rintro ⟨e, he⟩
      by_contra hne
      simp only [_normalize_extension_value, if_neg hne] at he
      split at he <;> exact Except.noConfusion he
    · intro h
      exact ⟨.metadataError "Extension values cannot be empty.",
        by simp [_normalize_extension_value, h]⟩
  · intro s c cs h
    have hne : pyStrip s ≠ "" := by
      intro he
      rw [he] at h
      simp at h
    simp only [_normalize_extension_value, hne, if_neg hne, h]
    simp
  · intro s hne hhd
    simp only [_normalize_extension_value, if_neg hne]
    simp [hhd]

/-- C9 (amended) witness: concrete instances of the amended claim. -/
theorem C9_amended_witness :
    _normalize_extension_value " .md " = .ok "md" :=
  C9_amended.2.2.1 " .md " 'm' ['d'] rfl

/-! ### C2 -/

/-- C2: counterexample.  The claim states that a 3-element `Dir` collection
field named `runs` with no name hint produces sub-directories
`runs_1`, `runs_2`, `runs_3`.  The source instead gives every element the
bare field name, so all three children land in the single shared directory
`runs` (later children overwriting earlier files). -/
theorem C2_counterexample :
    write_bundle 3 c2Inst .absent false =
      .succeeded (.dir [("runs", .dir [("payload.txt", .file "c")])]) ∧
    (match write_bundle 3 c2Inst .absent false with
     | .succeeded (.dir es) => es.map Prod.fst
     | _ => []) ≠ ["runs_1", "runs_2", "runs_3"] := by
  exact ⟨rfl, by decide⟩

/-- C2 (amended): a `Dir` collection field with no `name`/`prefix` hint for
the directory layer computes the bare field name for every element (the
elements share one parent directory); the `_<index>` default applies only
when the field is not a collection. -/
theorem C2_amended :
    ∀ (field : BundleField) (owner child : PyVal) (i : Nat),
      field.kind = FieldKind.DIR →
      field.is_collection = true →
      metaHint (_metadata_for_layer field.metadata Layer.LDir) "name" = none →
      metaHint (_metadata_for_layer field.metadata Layer.LDir) "prefix" = none →
      _compute_name field owner child (some i) = .ok field.name := by
  intro field owner child i hkind hcoll hname hpre
  simp [_compute_name, _resolve_hint, hkind, hcoll, hname, hpre]

/-- C2 (amended) witness: the built collection field computes `runs` for the
first element. -/
theorem C2_amended_witness :
    _compute_name c2RunsField c2Inst (c2Child "a") (some 0) = .ok "runs" :=
  C2_amended c2RunsField c2Inst (c2Child "a") 0 rfl rfl rfl rfl

/-! ### C4 -/

/-- The raw metadata of the C4 counterexample: a plain `name` entry plus a
`File`-layer scoped mapping, both targeting the root layer of a `File`
field. -/
def c4Raw : List (MKey × DynVal) :=
  [(.kStr "name", .dStr "x"), (.kFileCls, .dMap [("name", .dStr "y")])]

/-- C4: counterexample.  The claim states that raw metadata assigning the
same `(layer, index)` pair twice raises `BundleMetadataError`, including when
plain top-level entries and a layer-scoped mapping both target the root layer
at index 0.  The source only de-duplicates the layer-scoped keys themselves:
the plain entries and the `File`-scoped mapping below both produce a record
at `(File, 0)` and no error is raised. -/
theorem C4_counterexample :
    _normalize_metadata (.fileA [.aStr]) c4Raw true =
      .ok [⟨Layer.LFile, 0,
              [("name", .moHint ⟨.LITERAL, .hvStr "x", "self"⟩),
               ("extension", .moExt "txt")]⟩,
           ⟨Layer.LFile, 0,
              [("name", .moHint ⟨.LITERAL, .hvStr "y", "self"⟩)]⟩] ∧
    (match _normalize_metadata (.fileA [.aStr]) c4Raw true with
     | .ok ms => ms.map (fun m => (m.layer, m.index))
     | .error _ => []) = [(Layer.LFile, 0), (Layer.LFile, 0)] :=
  ⟨rfl, rfl⟩

/-- C4 (amended): duplicate layer-scoped keys do raise: assigning the same
layer twice — via the marker class and its name string — is a
`BundleMetadataError`, for any top-level `Dir`/`File` annotation and any pair
of values; but at most one record per `(layer, index)` is not an invariant of
the full normalized metadata (see the counterexample). -/
theorem C4_amended :
    ∀ (ann : Ann) (layer : Layer) (v1 v2 : DynVal) (inf : Bool) (rl : Layer),
      _top_layer ann = .ok rl →
      _normalize_metadata ann
        [(if layer = Layer.LDir then MKey.kDirCls else .kFileCls, v1),
         (.kStr layer.pyName, v2)] inf =
      .error (.metadataError ("Duplicate metadata assignment for layer " ++
        layer.pyName ++ ". Use a sequence of mappings instead.")) := by
  intro ann layer v1 v2 inf rl htop
  cases layer <;>
    simp [_normalize_metadata, htop, partitionMetadataKeys, MKey.layerOf,
      Layer.pyName]

/-- C4 (amended) witness: the duplicate-`Dir` assignment on a concrete `Dir`
annotation raises. -/
theorem C4_amended_witness :
    _normalize_metadata (.dirA [.bundleCls (.mk [])])
      [(MKey.kDirCls, .dMap []), (.kStr "Dir", .dMap [])] false =
    .error (.metadataError
      "Duplicate metadata assignment for layer Dir. Use a sequence of mappings instead.") :=
  C4_amended (.dirA [.bundleCls (.mk [])]) .LDir (.dMap []) (.dMap []) false
    .LDir rfl

/-! ### C10 -/

/-- Declarations for the C10 counterexample: a collection field `runs` plus a
sibling file field whose name template renders `runs` itself. -/
def c10Decls : List FieldDecl :=
  [⟨"runs", .dirA [.listA [.bundleCls c2ChildDefn]], []⟩,
   ⟨"doc", .fileA [.aStr], [(.kStr "name", .dStr "\x7bruns\x7d")]⟩]

/-- The built definition for the C10 counterexample. -/
def c10Defn : BundleDefinition :=
  match _build_bundle_definition c10Decls with
  | .ok d => d
  | .error _ => .mk []

/-- The C10 instance with `runs` an empty list. -/
def c10InstEmpty : PyVal :=
  .vInst (some c10Defn) [("runs", .vList []), ("doc", .vStr "d")]

/-- The C10 instance with `runs` set to `None`. -/
def c10InstNone : PyVal :=
  .vInst (some c10Defn) [("runs", .vNone), ("doc", .vStr "d")]

/-- The top-level entry names written by a `write_bundle` result. -/
def writtenNames (r : WriteResult) : List String :=
  match r with
  | .succeeded (.dir es) => es.map Prod.fst
  | _ => []

/-- C10: counterexample.  The claim states the output tree for an
empty-collection field equals the output when that field is `None` — for
every bundle instance.  A sibling field's name template can render the
field's value (`str([])` versus `str(None)`), so the two outputs differ:
below the file is named `[].txt` in one tree and `None.txt` in the other. -/
theorem C10_counterexample :
    writtenNames (write_bundle 3 c10InstEmpty .absent false) = ["[].txt"] ∧
    writtenNames (write_bundle 3 c10InstNone .absent false) = ["None.txt"] ∧
    write_bundle 3 c10InstEmpty .absent false ≠
      write_bundle 3 c10InstNone .absent false := by
  refine ⟨rfl, rfl, fun h => ?_⟩
  have hn : writtenNames (write_bundle 3 c10InstEmpty .absent false) =
      writtenNames (write_bundle 3 c10InstNone .absent false) := by rw [h]
  rw [show writtenNames (write_bundle 3 c10InstEmpty .absent false) =
        ["[].txt"] from rfl,
      show writtenNames (write_bundle 3 c10InstNone .absent false) =
        ["None.txt"] from rfl] at hn
  exact absurd hn (by decide)

/-- The field's `name` and `prefix` hints for its own layer are absent or
`Literal` (so their resolution cannot observe the owning instance). -/
def fieldHintsLiteral (field : BundleField) : Prop :=
  (∀ h, metaHint (_metadata_for_layer field.metadata
      (if field.kind = FieldKind.DIR then Layer.LDir else Layer.LFile))
      "name" = some h → h.kind = HintKind.LITERAL) ∧
  (∀ h, metaHint (_metadata_for_layer field.metadata
      (if field.kind = FieldKind.DIR then Layer.LDir else Layer.LFile))
      "prefix" = some h → h.kind = HintKind.LITERAL)

/-- Resolution of an absent-or-`Literal` hint pair never inspects the owner:
`_compute_name` agrees on any two owners. -/
theorem compute_name_owner_independent (field : BundleField)
    (hlit : fieldHintsLiteral field) (o1 o2 subject : PyVal)
    (index : Option Nat) :
    _compute_name field o1 subject index = _compute_name field o2 subject index := by
  obtain ⟨hn, hp⟩ := hlit
  unfold _compute_name
  cases hname : metaHint (_metadata_for_layer field.metadata
      (if field.kind = FieldKind.DIR then Layer.LDir else Layer.LFile)) "name" with
  | none =>
    simp only [hname]
    cases hpre : metaHint (_metadata_for_layer field.metadata
        (if field.kind = FieldKind.DIR then Layer.LDir else Layer.LFile))
        "prefix" with
    | none => simp [_resolve_hint, hpre]
    | some ph =>
      have hl := hp ph hpre
      simp only [hpre, _resolve_hint, hl]
      try cases ph.value <;> simp
  | some h =>
    have hl := hn h hname
    cases hpre : metaHint (_metadata_for_layer field.metadata
        (if field.kind = FieldKind.DIR then Layer.LDir else Layer.LFile))
        "prefix" with
    | none =>
      simp only [hname, hpre, _resolve_hint, hl]
      try cases h.value <;> simp
    | some ph =>
      have hp' := hp ph hpre
      simp only [hname, hpre, _resolve_hint, hl, hp']
      try cases h.value <;> cases ph.value <;> simp

/-- The directory-entry loop never inspects the owner when the field's hints
are absent or literal. -/
theorem renderDirEntryLoop_owner_congr
    (recur : BundleDefinition → PyVal → List (String × FsTree) →
      Option RenderErr × List (String × FsTree))
    (field : BundleField) (hlit : fieldHintsLiteral field) :
    ∀ (pairs : List (Option Nat × PyVal)) (o1 o2 : PyVal)
      (acc : List (String × FsTree)),
      renderDirEntryLoop recur field o1 acc pairs =
      renderDirEntryLoop recur field o2 acc pairs := by
  intro pairs
  induction pairs with
  | nil => intro o1 o2 acc; rfl
  | cons hd tl ih =>
    intro o1 o2 acc
    obtain ⟨index, child⟩ := hd
    simp only [renderDirEntryLoop]
    rw [compute_name_owner_independent field hlit o1 o2 child index]
    cases hcn : _compute_name field o2 child index with
    | error e => rfl
    | ok name =>
      dsimp only
      cases hmk : fsMkdirp acc (pathSegs name) with
      | error e => rfl
      | ok entries1 =>
        dsimp only
        cases child with
        | vInst d attrs =>
          cases d with
          | some child_def =>
            dsimp only
            cases hr : (fsRenderAt entries1 (pathSegs name)
                (recur child_def (.vInst (some child_def) attrs))).1 with
            | some e => rfl
            | none => dsimp only; exact ih o1 o2 _
          | none => rfl
        | vNone => rfl
        | vStr s => rfl
        | vBytes s => rfl
        | vBool b => rfl
        | vInt n => rfl
        | vList xs => rfl
        | vDict m => rfl

/-- File-field rendering never inspects the owner when the field's hints are
absent or literal. -/
theorem render_file_owner_congr (field : BundleField)
    (hlit : fieldHintsLiteral field) (v o1 o2 : PyVal)
    (acc : List (String × FsTree)) :
    _render_file_field field v o1 acc = _render_file_field field v o2 acc := by
  unfold _render_file_field
  rw [compute_name_owner_independent field hlit o1 o2 v none]

/-- The field loop treats an empty-collection `DIR` value exactly as `None`,
for instances differing only in that attribute, as long as every hint is
absent or literal. -/
theorem renderFieldLoop_empty_vs_none
    (recur : BundleDefinition → PyVal → List (String × FsTree) →
      Option RenderErr × List (String × FsTree))
    (cls : Option BundleDefinition) (f : String)
    (rest : List (String × PyVal)) :
    ∀ (fields : List BundleField) (acc : List (String × FsTree)),
      (∀ fld, fld ∈ fields → fld.name = f → fld.kind = FieldKind.DIR) →
      (∀ fld, fld ∈ fields → fieldHintsLiteral fld) →
      renderFieldLoop recur (.vInst cls ((f, .vList []) :: rest)) acc fields =
      renderFieldLoop recur (.vInst cls ((f, .vNone) :: rest)) acc fields := by
  intro fields
  induction fields with
  | nil => intro acc _ _; rfl
  | cons fld tl ih =>
    intro acc hdir hlit
    have hlit_fld := hlit fld (List.mem_cons_self fld tl)
    have hdir_tl : ∀ g, g ∈ tl → g.name = f → g.kind = FieldKind.DIR :=
      fun g hg => hdir g (List.mem_cons_of_mem fld hg)
    have hlit_tl : ∀ g, g ∈ tl → fieldHintsLiteral g :=
      fun g hg => hlit g (List.mem_cons_of_mem fld hg)
    have hdirc : ∀ (v : PyVal) (acc2 : List (String × FsTree)),
        _render_dir_field recur fld v (.vInst cls ((f, .vList []) :: rest)) acc2 =
        _render_dir_field recur fld v (.vInst cls ((f, .vNone) :: rest)) acc2 :=
      fun v acc2 => by
        unfold _render_dir_field
        exact renderDirEntryLoop_owner_congr recur fld hlit_fld _ _ _ _
    by_cases hf : fld.name = f
    · have hkind := hdir fld (List.mem_cons_self fld tl) hf
      have hbeq : (fld.name == f) = true := by simp [hf]
      simp only [renderFieldLoop, getattrPy, List.lookup, hbeq]
      simp only [isNonePy, hkind]
      have h1 : _render_dir_field recur fld (.vList [])
          (.vInst cls ((f, .vList []) :: rest)) acc = (none, acc) := rfl
      simp only [h1]
      exact ih acc hdir_tl hlit_tl
    · have hbeq : (fld.name == f) = false := by simp [hf]
      simp only [renderFieldLoop, getattrPy, List.lookup, hbeq]
      cases hval : List.lookup fld.name rest with
      | none => rfl
      | some v =>
        dsimp only
        by_cases hv : isNonePy v = true
        · simp only [hv, if_pos rfl]
          exact ih acc hdir_tl hlit_tl
        · rw [if_neg hv, if_neg hv]
          cases hkind : fld.kind with
          | DIR =>
            dsimp only
            rw [hdirc v acc]
            cases hr : (_render_dir_field recur fld v
                (.vInst cls ((f, .vNone) :: rest)) acc).1 with
            | some e => rfl
            | none => dsimp only; exact ih _ hdir_tl hlit_tl
          | FILE =>
            dsimp only
            rw [render_file_owner_congr fld hlit_fld v
              (.vInst cls ((f, .vList []) :: rest))
              (.vInst cls ((f, .vNone) :: rest)) acc]
            cases hr : (_render_file_field fld v
                (.vInst cls ((f, .vNone) :: rest)) acc).1 with
            | some e => rfl
            | none => dsimp only; exact ih _ hdir_tl hlit_tl
          | VALUE =>
            dsimp only
            exact ih acc hdir_tl hlit_tl

/-- C10 (amended): an empty-collection `Dir` field writes nothing (no entry,
not even the shared parent), and the output tree is identical to the `None`
case provided every field's `name`/`prefix` hints are absent or literal — a
template (or callable) hint can observe the field's value and produce a
different tree (see the counterexample). -/
theorem C10_amended :
    (∀ (recur : BundleDefinition → PyVal → List (String × FsTree) →
         Option RenderErr × List (String × FsTree))
       (field : BundleField) (owner : PyVal)
       (entries : List (String × FsTree)),
       _render_dir_field recur field (.vList []) owner entries =
         (none, entries)) ∧
    (∀ (fuel : Nat) (defn : BundleDefinition) (cls : Option BundleDefinition)
       (f : String) (rest : List (String × PyVal))
       (acc : List (String × FsTree)),
       (∀ fld, fld ∈ defn.fields → fld.name = f →
          fld.kind = FieldKind.DIR) →
       (∀ fld, fld ∈ defn.fields → fieldHintsLiteral fld) →
       _render_fields fuel defn (.vInst cls ((f, .vList []) :: rest)) acc =
       _render_fields fuel defn (.vInst cls ((f, .vNone) :: rest)) acc) := by
  constructor
  · intro recur field owner entries; rfl
  · intro fuel defn cls f rest acc hdir hlit
    cases fuel with
    | zero => rfl
    | succ fuel =>
      simp only [_render_fields]
      exact renderFieldLoop_empty_vs_none _ cls f rest defn.fields acc hdir hlit

/-- C10 (amended) witness: for the collection bundle with no hints, the empty
list and `None` render identically (and render nothing). -/
theorem C10_amended_witness :
    _render_fields 3 c2RootDefn
        (.vInst (some c2RootDefn) [("runs", .vList [])]) [] =
      _render_fields 3 c2RootDefn
        (.vInst (some c2RootDefn) [("runs", .vNone)]) [] :=
  C10_amended.2 3 c2RootDefn (some c2RootDefn) "runs" [] []
    (by
      intro fld hm hn
      have : c2RootDefn.fields = [BundleField.mk "runs" .DIR
          (.dirA [.listA [.bundleCls c2ChildDefn]]) [] true] := rfl
      rw [this] at hm
      simp at hm
      subst hm
      rfl)
    (by
      intro fld hm
      have : c2RootDefn.fields = [BundleField.mk "runs" .DIR
          (.dirA [.listA [.bundleCls c2ChildDefn]]) [] true] := rfl
      rw [this] at hm
      simp at hm
      subst hm
      constructor
      · intro h hh; exact Option.noConfusion hh
      · intro h hh; exact Option.noConfusion hh)

/-! ### C3 -/

/-- C3: the destination guard.  Writing into an existing non-empty directory
without `overwrite` fails with the `RenderError` for a non-empty destination
and leaves the destination exactly as it was; with `overwrite` the guard is
skipped and a successful render overlays into the existing entries; an
absent destination is created (the render starts from an empty directory)
regardless of `overwrite`. -/
theorem C3_destination_guard :
    ∀ (b : PyVal) (es : List (String × FsTree)) (fuel : Nat),
      (es ≠ [] → write_bundle fuel b (.presentDir es) false =
        .failed .destinationNotEmpty (.presentDir es)) ∧
      (∀ d attrs out, b = .vInst (some d) attrs →
        _render_fields fuel d b es = (none, out) →
        write_bundle fuel b (.presentDir es) true = .succeeded (.dir out)) ∧
      (∀ d attrs out ov, b = .vInst (some d) attrs →
        _render_fields fuel d b [] = (none, out) →
        write_bundle fuel b .absent ov = .succeeded (.dir out)) := by
  intro b es fuel
  refine ⟨?_, ?_, ?_⟩
  · intro hne
    have : es.isEmpty = false := by
      cases es with
      | nil => exact absurd rfl hne
      | cons a l => rfl
    simp [write_bundle, this]
  · rintro d attrs out rfl hr
    simp [write_bundle, hr]
  · rintro d attrs out ov rfl hr
    simp [write_bundle, hr]

/-- C3 witness: the guard, the overlay, and the creation case on the
three-child collection bundle against a concrete destination. -/
theorem C3_destination_guard_witness :
    write_bundle 3 c2Inst (.presentDir [("x", .file "y")]) false =
      .failed .destinationNotEmpty (.presentDir [("x", .file "y")]) ∧
    write_bundle 3 c2Inst (.presentDir [("x", .file "y")]) true =
      .succeeded (.dir [("x", .file "y"),
        ("runs", .dir [("payload.txt", .file "c")])]) ∧
    write_bundle 3 c2Inst .absent false =
      .succeeded (.dir [("runs", .dir [("payload.txt", .file "c")])]) :=
  ⟨(C3_destination_guard c2Inst [("x", .file "y")] 3).1 (by simp),
   (C3_destination_guard c2Inst [("x", .file "y")] 3).2.1 c2RootDefn
     [("runs", .vList [c2Child "a", c2Child "b", c2Child "c"])] _ rfl rfl,
   (C3_destination_guard c2Inst [] 3).2.2 c2RootDefn
     [("runs", .vList [c2Child "a", c2Child "b", c2Child "c"])] _ false rfl rfl⟩

/-! ### C7 -/

/-- Looking up any key other than the injected `index` is unchanged by
`ctxSetdefault`. -/
theorem lookup_append_index_ne (v : PyVal) (k : String) (hk : k ≠ "index") :
    ∀ m : List (String × PyVal),
      (m ++ [("index", v)]).lookup k = m.lookup k := by
  intro m
  induction m with
  | nil => simp [List.lookup, beq_eq_false_iff_ne.mpr hk]
  | cons p rest ih =>
    simp only [List.cons_append, List.lookup]
    cases hpk : (k == p.1) <;> simp [ih]

/-- Looking up any key other than the injected `index` is unchanged by
`ctxSetdefault`. -/
theorem ctxSetdefault_lookup_ne (m : List (String × PyVal)) (v : PyVal)
    (k : String) (hk : k ≠ "index") :
    (ctxSetdefault m "index" v).lookup k = m.lookup k := by
  unfold ctxSetdefault
  split
  · rfl
  · exact lookup_append_index_ne v k hk m

/-- C7: resolving the name template `"\x7bmissing\x7d"` against a resolution
context that lacks the key `missing` fails with the writer's
template-resolution error, which names the missing key (`RenderError`
wrapping the `KeyError`, per the source). -/
theorem C7_template_missing_key :
    ∀ (owner subject : PyVal) (index : Option Nat) (field_name src : String),
      (_context_from (if src = "self" then owner else subject)).lookup
        "missing" = none →
      _resolve_hint (some ⟨.TEMPLATE, .hvStr "\x7bmissing\x7d", src⟩)
          owner subject index field_name =
        .error (.missingTemplateVar "missing" field_name) := by
  intro owner subject index field_name src hctx
  unfold _resolve_hint
  dsimp only
  have hfmt : ∀ (ctx : List (String × PyVal)), ctx.lookup "missing" = none →
      pyFormat ctx ("\x7bmissing\x7d".data) = .error (.keyError "missing") := by
    intro ctx h
    have hred : pyFormat ctx ("\x7bmissing\x7d".data) =
        (match ctx.lookup "missing" with
         | none => Except.error (FmtErr.keyError "missing")
         | some v => Except.ok (pyStrOf v ++ "")) := rfl
    rw [hred, h]
  cases index with
  | none =>
    rw [hfmt (_context_from (if src = "self" then owner else subject)) hctx]
  | some i =>
    rw [hfmt (ctxSetdefault
        (_context_from (if src = "self" then owner else subject)) "index"
        (.vInt i))
      (by rw [ctxSetdefault_lookup_ne _ _ _ (by decide)]; exact hctx)]

/-- C7 witness: a concrete owner without attribute `missing`. -/
theorem C7_template_missing_key_witness :
    _resolve_hint (some ⟨.TEMPLATE, .hvStr "\x7bmissing\x7d", "self"⟩)
        (.vInst none [("other", .vStr "v")]) (.vStr "x") none "rep" =
      .error (.missingTemplateVar "missing" "rep") :=
  C7_template_missing_key (.vInst none [("other", .vStr "v")]) (.vStr "x")
    none "rep" "self" rfl

/-! ### C5 -/

/-- Stripping `Annotated` wrappers is idempotent. -/
theorem strip_idem : ∀ a, _strip_annotated (_strip_annotated a) = _strip_annotated a
  | .annotated base => strip_idem base
  | .aStr => rfl
  | .aInt => rfl
  | .aFloat => rfl
  | .aBool => rfl
  | .aAnyT => rfl
  | .aDictBare => rfl
  | .union _ => rfl
  | .listA _ => rfl
  | .setA _ => rfl
  | .tupleA _ => rfl
  | .dictA _ => rfl
  | .dirA _ => rfl
  | .fileA _ => rfl
  | .bundleCls _ => rfl
  | .otherCls => rfl

/-- `_is_text_scalar` is invariant under stripping `Annotated`. -/
theorem is_text_scalar_strip :
    ∀ a, _is_text_scalar (_strip_annotated a) = _is_text_scalar a
  | .annotated base => is_text_scalar_strip base
  | .aStr => rfl
  | .aInt => rfl
  | .aFloat => rfl
  | .aBool => rfl
  | .aAnyT => rfl
  | .aDictBare => rfl
  | .union _ => rfl
  | .listA _ => rfl
  | .setA _ => rfl
  | .tupleA _ => rfl
  | .dictA _ => rfl
  | .dirA _ => rfl
  | .fileA _ => rfl
  | .bundleCls _ => rfl
  | .otherCls => rfl

/-- `_is_mapping_type` is invariant under stripping `Annotated`. -/
theorem is_mapping_type_strip (a : Ann) :
    _is_mapping_type (_strip_annotated a) = _is_mapping_type a := by
  unfold _is_mapping_type
  rw [strip_idem]

/-- A text-scalar annotation is not a mapping annotation. -/
theorem text_scalar_not_mapping (a : Ann) (h : _is_text_scalar a = true) :
    _is_mapping_type a = false := by
  unfold _is_mapping_type
  rw [← is_text_scalar_strip] at h
  cases hs : _strip_annotated a <;> rw [hs] at h <;> first
    | rfl
    | exact absurd h (by simp [_is_text_scalar])

/-- A mapping annotation is not a text scalar. -/
theorem mapping_not_text_scalar (a : Ann) (h : _is_mapping_type a = true) :
    _is_text_scalar a = false := by
  unfold _is_mapping_type at h
  rw [← is_text_scalar_strip]
  cases hs : _strip_annotated a <;> rw [hs] at h <;> first
    | rfl
    | exact absurd h (by simp)

/-- Every successful payload-extension inference yields one of the literal
extensions, each of which re-normalizes to itself. -/
theorem infer_ext_normalizes (p : Ann) (e : String)
    (h : _infer_extension_from_payload p = some e) :
    _normalize_extension_value e = .ok e := by
  unfold _infer_extension_from_payload at h
  dsimp only at h
  repeat' split at h
  all_goals first
    | (cases h; rfl)
    | cases h

/-- C5: extension inference and its integration into metadata
normalization.  A scalar text/number payload infers `txt`, a mapping payload
infers `json`, a list of mappings infers `jsonl`, a list of scalars infers
`txt`; building the metadata of a `File` field with no configured extension
attaches exactly the inferred extension at `(File, 0)`; and an explicitly
configured extension is never overwritten by inference. -/
theorem C5_extension_inference :
    (∀ p, _is_text_scalar p = true →
       _infer_extension_from_payload p = some "txt") ∧
    (∀ p, _is_mapping_type p = true →
       _infer_extension_from_payload p = some "json") ∧
    (∀ inner rest, _is_mapping_type inner = true →
       _infer_extension_from_payload (.listA (inner :: rest)) = some "jsonl") ∧
    (∀ inner rest, _is_text_scalar inner = true →
       _infer_extension_from_payload (.listA (inner :: rest)) = some "txt") ∧
    (∀ payload e, _infer_extension_from_payload payload = some e →
       _normalize_metadata (.fileA [payload]) [] true =
         .ok [⟨Layer.LFile, 0, [("extension", .moExt e)]⟩]) ∧
    (∀ md ann inf, _metadata_has_extension md = true →
       _maybe_attach_extension md ann inf = .ok md) := by
  refine ⟨?_, ?_, ?_, ?_, ?_, ?_⟩
  · intro p h
    unfold _infer_extension_from_payload
    dsimp only
    rw [is_text_scalar_strip, h]
    rfl
  · intro p h
    unfold _infer_extension_from_payload
    dsimp only
    rw [is_text_scalar_strip, mapping_not_text_scalar p h,
      is_mapping_type_strip, h]
    rfl
  · intro inner rest h
    unfold _infer_extension_from_payload
    dsimp only
    rw [show _strip_annotated (Ann.listA (inner :: rest)) =
          Ann.listA (inner :: rest) from rfl,
        show _is_text_scalar (Ann.listA (inner :: rest)) = false from rfl,
        show _is_mapping_type (Ann.listA (inner :: rest)) = false from rfl]
    simp [h]
  · intro inner rest h
    unfold _infer_extension_from_payload
    dsimp only
    rw [show _strip_annotated (Ann.listA (inner :: rest)) =
          Ann.listA (inner :: rest) from rfl,
        show _is_text_scalar (Ann.listA (inner :: rest)) = false from rfl,
        show _is_mapping_type (Ann.listA (inner :: rest)) = false from rfl]
    simp [h, text_scalar_not_mapping inner h]
  · intro payload e h
    have h2 : _infer_extension_from_file_annotation (.fileA [payload]) =
        .ok (some e) := by
      unfold _infer_extension_from_file_annotation
      rw [show _strip_annotated (.fileA [payload]) = .fileA [payload] from rfl]
      dsimp only
      rw [h]
      dsimp only
      rw [infer_ext_normalizes payload e h]
    have hred : _normalize_metadata (.fileA [payload]) [] true =
        _maybe_attach_extension [] (.fileA [payload]) true := rfl
    rw [hred]
    unfold _maybe_attach_extension
    rw [h2]
    simp [_metadata_has_extension, infer_ext_normalizes payload e h]
  · intro md ann inf h
    unfold _maybe_attach_extension
    split
    · rfl
    · simp [h]

/-- C5 witness: the concrete inference table and an explicit extension
surviving, matching the repository's `test_extension_inference_variants`. -/
theorem C5_extension_inference_witness :
    _infer_extension_from_payload .aStr = some "txt" ∧
    _infer_extension_from_payload .aDictBare = some "json" ∧
    _infer_extension_from_payload (.listA [.dictA [.aStr, .aInt]]) =
      some "jsonl" ∧
    _infer_extension_from_payload (.listA [.aStr]) = some "txt" ∧
    _normalize_metadata (.fileA [.aStr]) [] true =
      .ok [⟨Layer.LFile, 0, [("extension", .moExt "txt")]⟩] ∧
    _maybe_attach_extension [⟨Layer.LFile, 0, [("extension", .moExt "bin")]⟩]
        (.fileA [.aStr]) true =
      .ok [⟨Layer.LFile, 0, [("extension", .moExt "bin")]⟩] :=
  ⟨C5_extension_inference.1 .aStr rfl,
   C5_extension_inference.2.1 .aDictBare rfl,
   C5_extension_inference.2.2.1 (.dictA [.aStr, .aInt]) [] rfl,
   C5_extension_inference.2.2.2.1 .aStr [] rfl,
   C5_extension_inference.2.2.2.2.1 .aStr "txt" rfl,
   C5_extension_inference.2.2.2.2.2 _ _ true rfl⟩

/-! ### C8 -/

/-- C8: the total ordering of hint-normalization cases.  `None` yields no
hint; a callable yields a `CALLABLE` hint; text containing both braces yields
a `TEMPLATE` hint; other non-empty text yields a `LITERAL` hint; empty text
is a `BundleMetadataError`; a 2-element `(value, source)` pair requires a
source that strips/lower-cases to `self` or `field` (else
`BundleMetadataError`, also when the source is not text at all), and an
unpaired value defaults its source to `self`. -/
theorem C8_hint_normalization :
    (∀ n, _normalize_hint_entry n .dNone = .ok none) ∧
    (∀ n f, _normalize_hint_entry n (.dCallable f) =
       .ok (some ⟨.CALLABLE, .hvFn f, "self"⟩)) ∧
    (∀ n s, s ≠ "" → strHasChar s lbrace = true → strHasChar s rbrace = true →
       _normalize_hint_entry n (.dStr s) =
         .ok (some ⟨.TEMPLATE, .hvStr s, "self"⟩)) ∧
    (∀ n s, s ≠ "" →
       ¬(strHasChar s lbrace = true ∧ strHasChar s rbrace = true) →
       _normalize_hint_entry n (.dStr s) =
         .ok (some ⟨.LITERAL, .hvStr s, "self"⟩)) ∧
    (∀ n, ∃ msg, _normalize_hint_entry n (.dStr "") =
       .error (.metadataError msg)) ∧
    (∀ n v srcs, hintSources.contains (pyLower (pyStrip srcs)) = true →
       _normalize_hint_entry n (.dTuple [v, .dStr srcs]) =
         classifyHintValue n v (pyLower (pyStrip srcs))) ∧
    (∀ n v srcs, hintSources.contains (pyLower (pyStrip srcs)) = false →
       ∃ msg, _normalize_hint_entry n (.dTuple [v, .dStr srcs]) =
         .error (.metadataError msg)) ∧
    (∀ n v sv, (∀ s, sv ≠ .dStr s) →
       ∃ msg, _normalize_hint_entry n (.dTuple [v, sv]) =
         .error (.metadataError msg)) := by
  refine ⟨fun n => rfl, fun n f => rfl, ?_, ?_, fun n => ⟨_, rfl⟩, ?_, ?_, ?_⟩
  · intro n s hne hl hr
    unfold _normalize_hint_entry classifyHintValue
    simp [hne, hl, hr]
    rw [show pyLower (pyStrip defaultHintSource) = "self" from rfl]
    simp [hintSources]
  · intro n s hne hnot
    unfold _normalize_hint_entry classifyHintValue
    simp [hne, hnot]
    rw [show pyLower (pyStrip defaultHintSource) = "self" from rfl]
    simp [hintSources]
  · intro n v srcs hsrc
    have hmem : pyLower (pyStrip srcs) ∈ hintSources := by
      simpa using hsrc
    unfold _normalize_hint_entry
    simp [hmem]
  · intro n v srcs hsrc
    have hmem : pyLower (pyStrip srcs) ∉ hintSources := by
      simpa using hsrc
    unfold _normalize_hint_entry
    exact ⟨"Metadata entry '" ++ n ++ "' source must be one of ('self', 'field').",
      by simp [hmem]⟩
  · intro n v sv hnostr
    unfold _normalize_hint_entry
    cases sv with
    | dStr s => exact absurd rfl (hnostr s)
    | dNone => exact ⟨_, rfl⟩
    | dCallable f => exact ⟨_, rfl⟩
    | dHint h => exact ⟨_, rfl⟩
    | dTuple xs => exact ⟨_, rfl⟩
    | dList xs => exact ⟨_, rfl⟩
    | dMap m => exact ⟨_, rfl⟩
    | dOther => exact ⟨_, rfl⟩

/-- C8 witness: concrete instances of every claimed case. -/
theorem C8_hint_normalization_witness :
    _normalize_hint_entry "name" (.dStr "x\x7by\x7dz") =
      .ok (some ⟨.TEMPLATE, .hvStr "x\x7by\x7dz", "self"⟩) ∧
    _normalize_hint_entry "name" (.dStr "static") =
      .ok (some ⟨.LITERAL, .hvStr "static", "self"⟩) ∧
    _normalize_hint_entry "name" (.dTuple [.dStr "v", .dStr " FielD "]) =
      classifyHintValue "name" (.dStr "v") "field" ∧
    (∃ msg, _normalize_hint_entry "prefix" (.dTuple [.dStr "v", .dStr "bogus"]) =
      .error (.metadataError msg)) ∧
    (∃ msg, _normalize_hint_entry "name" (.dTuple [.dStr "v", .dNone]) =
      .error (.metadataError msg)) :=
  ⟨C8_hint_normalization.2.2.1 "name" "x\x7by\x7dz" (by decide) (by decide)
     (by decide),
   C8_hint_normalization.2.2.2.1 "name" "static" (by decide) (by decide),
   C8_hint_normalization.2.2.2.2.2.1 "name" (.dStr "v") " FielD " (by decide),
   C8_hint_normalization.2.2.2.2.2.2.1 "prefix" (.dStr "v") "bogus" (by decide),
   C8_hint_normalization.2.2.2.2.2.2.2 "name" (.dStr "v") .dNone
     (fun s h => DynVal.noConfusion h)⟩

/-! ### C6 -/

mutual
/-- Every file entry reachable in the tree has a recognized extension. -/
def treeSupported : FsTree → Bool
  | .file _ => true
  | .dir es => entriesSupported es

/-- Every file entry reachable in the entry list has a recognized
extension. -/
def entriesSupported : List (String × FsTree) → Bool
  | [] => true
  | (n, t) :: rest =>
    (match t with
     | .file _ => SUPPORTED_EXTENSIONS.contains (pyLower (pathSuffix n))
     | .dir _ => true) && treeSupported t && entriesSupported rest
end

/-- Unfolding of `entriesSupported` as a statement about members. -/
theorem entriesSupported_iff (es : List (String × FsTree)) :
    entriesSupported es = true ↔
      ∀ p : String × FsTree, p ∈ es →
        treeSupported p.2 = true ∧
        (∀ c, p.2 = FsTree.file c →
          SUPPORTED_EXTENSIONS.contains (pyLower (pathSuffix p.1)) = true) := by
  induction es with
  | nil => simp [entriesSupported]
  | cons hd tl ih =>
    obtain ⟨n, t⟩ := hd
    rw [show entriesSupported ((n, t) :: tl) =
      ((match t with
        | FsTree.file _ => SUPPORTED_EXTENSIONS.contains (pyLower (pathSuffix n))
        | FsTree.dir _ => true) && treeSupported t && entriesSupported tl) from rfl]
    constructor
    · intro h p hp
      simp only [Bool.and_eq_true] at h
      obtain ⟨⟨hext, htree⟩, htl⟩ := h
      rcases List.mem_cons.mp hp with heq | hmem
      · subst heq
        refine ⟨htree, ?_⟩
        intro c hc
        dsimp only at hc ⊢
        rw [hc] at hext
        exact hext
      · exact (ih.mp htl) p hmem
    · intro h
      simp only [Bool.and_eq_true]
      refine ⟨⟨?_, (h (n, t) (List.mem_cons_self _ _)).1⟩, ?_⟩
      · cases t with
        | file c => exact (h (n, .file c) (List.mem_cons_self _ _)).2 c rfl
        | dir sub => rfl
      · exact ih.mpr (fun p hp => h p (List.mem_cons_of_mem _ hp))

/-- Membership is preserved by sorted insertion. -/
theorem mem_insertEntry (x y : String × FsTree) :
    ∀ l, x ∈ insertEntry y l ↔ x = y ∨ x ∈ l := by
  intro l
  induction l with
  | nil => simp [insertEntry]
  | cons hd tl ih =>
    rw [insertEntry]
    split
    · simp
    · rw [List.mem_cons, ih, List.mem_cons]
      tauto

/-- Membership is preserved by the reader's entry sort. -/
theorem mem_sortEntries (x : String × FsTree) :
    ∀ l, x ∈ sortEntries l ↔ x ∈ l := by
  intro l
  induction l with
  | nil => simp [sortEntries]
  | cons hd tl ih =>
    rw [sortEntries, List.foldr_cons]
    rw [show List.foldr insertEntry [] tl = sortEntries tl from rfl]
    rw [mem_insertEntry, ih, List.mem_cons]

/-- Soundness of the entry loop: a successful pass implies every file entry
had a recognized extension and every directory entry recursed successfully. -/
theorem buildEntriesLoop_ok_mem
    (recur : List (String × FsTree) → Except ReadErr (BundleDefinition × PyVal)) :
    ∀ (es : List (String × FsTree)) (used : List String)
      (r : List FieldDecl × List (String × PyVal)),
      buildEntriesLoop recur used es = .ok r →
      ∀ n t, (n, t) ∈ es →
        (∀ c, t = FsTree.file c →
          SUPPORTED_EXTENSIONS.contains (pyLower (pathSuffix n)) = true) ∧
        (∀ sub, t = FsTree.dir sub → ∃ r2, recur sub = .ok r2) := by
  intro es
  induction es with
  | nil => intro used r h n t hmem; exact absurd hmem (by simp)
  | cons hd tl ih =>
    intro used r h n t hmem
    obtain ⟨en, et⟩ := hd
    rw [buildEntriesLoop.eq_def] at h
    try dsimp only at h
    rcases List.mem_cons.mp hmem with heq | hmem'
    · injection heq with h1 h2
      subst h1; subst h2
      constructor
      · intro c hc
        subst hc
        try dsimp only at h
        by_contra hbad
        rw [Bool.not_eq_true] at hbad
        rw [hbad] at h
        simp at h
      · intro sub hsub
        subst hsub
        try dsimp only at h
        cases hrec : recur sub with
        | error e => rw [hrec] at h; exact absurd h (by simp)
        | ok r2 => exact ⟨r2, rfl⟩
    · -- the condition for a tail member: peel the head's processing
      cases et with
      | dir sub =>
        try dsimp only at h
        cases hrec : recur sub with
        | error e => rw [hrec] at h; exact absurd h (by simp)
        | ok pr =>
          rw [hrec] at h
          try dsimp only at h
          cases htw : twig (some (.dStr en)) none none with
          | error e => rw [htw] at h; exact absurd h (by simp)
          | ok raw =>
            rw [htw] at h
            try dsimp only at h
            cases hloop : buildEntriesLoop recur
                (used ++ [_unique_field_name used (_snake_case en)]) tl with
            | error e => rw [hloop] at h; exact absurd h (by simp)
            | ok pr2 => exact ih _ pr2 hloop n t hmem'
      | file content =>
        try dsimp only at h
        by_cases hsupp :
            SUPPORTED_EXTENSIONS.contains (pyLower (pathSuffix en)) = true
        · rw [hsupp] at h
          try dsimp only at h
          cases hb : _build_file (pyLower (pathSuffix en)) content with
          | error e => rw [hb] at h; exact absurd h (by simp)
          | ok av =>
            rw [hb] at h
            obtain ⟨ann, value⟩ := av
            try dsimp only at h
            cases htw : twig (some (.dStr (pathStem en)))
                (some (lstripDots (pyLower (pathSuffix en)))) none with
            | error e => rw [htw] at h; exact absurd h (by simp)
            | ok raw =>
              rw [htw] at h
              try dsimp only at h
              cases hloop : buildEntriesLoop recur
                  (used ++ [_unique_field_name used (_snake_case (pathStem en))])
                  tl with
              | error e => rw [hloop] at h; exact absurd h (by simp)
              | ok pr2 => exact ih _ pr2 hloop n t hmem'
        · rw [Bool.not_eq_true] at hsupp
          rw [hsupp] at h
          simp at h

/-- A successful `_build_dir` implies every file entry (recursively) had a
recognized extension. -/
theorem build_dir_ok_supported :
    ∀ (fuel : Nat) (es : List (String × FsTree))
      (r : BundleDefinition × PyVal),
      _build_dir fuel es = .ok r → entriesSupported es = true := by
  intro fuel
  induction fuel with
  | zero => intro es r h; exact absurd h (by simp [_build_dir])
  | succ fuel ih =>
    intro es r h
    rw [_build_dir] at h
    cases hloop : buildEntriesLoop (fun sub => _build_dir fuel sub) []
        (sortEntries es) with
    | error e => rw [hloop] at h; exact absurd h (by simp)
    | ok pr =>
      have hmem := buildEntriesLoop_ok_mem _ (sortEntries es) [] pr hloop
      rw [entriesSupported_iff]
      rintro ⟨n, t⟩ hp
      have hp' : (n, t) ∈ sortEntries es := (mem_sortEntries _ _).mpr hp
      have hnt := hmem n t hp'
      cases t with
      | file c =>
        exact ⟨rfl, fun c2 hc2 => hnt.1 c rfl⟩
      | dir sub =>
        obtain ⟨r2, hr2⟩ := hnt.2 sub rfl
        refine ⟨?_, fun c hc => FsTree.noConfusion hc⟩
        rw [show treeSupported (.dir sub) = entriesSupported sub from rfl]
        exact ih sub r2 hr2

/-- C6: a tree with an unrecognized extension never yields an
`InferredBundle`: inference succeeds only when every file entry's extension
is recognized (so a tree containing e.g. `notes.md` makes every inference
attempt fail), and on the concrete `notes.md` tree the failure is the
unsupported-extension error naming the entry (Python's
`ValueError("Unsupported file extension '.md' ...")`). -/
theorem C6_unsupported_extension :
    (∀ fuel es r, infer_bundle_from_directory fuel (.presentDir es) = .ok r →
       entriesSupported es = true) ∧
    infer_bundle_from_directory 2
        (.presentDir [("notes.md", .file "hello")]) =
      .error (.unsupportedExtension ".md" "notes.md") := by
  constructor
  · intro fuel es r h
    exact build_dir_ok_supported fuel es r h
  · rfl

/-- A one-file tree with a recognized extension, for the C6 witness. -/
def c6OkTree : List (String × FsTree) := [("a.txt", .file "x")]

/-- The successful inference result on `c6OkTree`. -/
def c6Result : BundleDefinition × PyVal :=
  match infer_bundle_from_directory 2 (.presentDir c6OkTree) with
  | .ok r => r
  | .error _ => (.mk [], .vNone)

/-- C6 witness: the soundness direction applied to a concrete successful
inference. -/
theorem C6_unsupported_extension_witness :
    entriesSupported c6OkTree = true :=
  C6_unsupported_extension.1 2 c6OkTree c6Result rfl

/-! ### C1: canonicalization, validity and depth of directory trees -/

/-- The canonical content the round trip produces for a file with the given
suffix: `.txt` verbatim; `.json` re-encoded pretty (a decoded string payload
is written as raw text, bytes verbatim); `.jsonl` re-encoded one compact row
per line.  The fallbacks are unreachable on valid trees. -/
def canonContent (suffix content : String) : String :=
  if suffix = ".json" then
    match decodeJson content with
    | some (.vStr s) => s
    | some (.vBytes b) => b
    | some v => (jsonEncPretty 0 v).getD content
    | none => content
  else if suffix = ".jsonl" then
    match decodeJsonlRows (jsonlLines content) with
    | some rows => (_write_payload.rowsJoin rows).getD content
    | none => content
  else content

mutual
/-- Canonicalize the tree behind an entry named `n`: file contents are
canonicalized, and a sub-directory's entries are canonicalized and then
sorted (the order the writer emits). -/
def canonTree (n : String) : FsTree → FsTree
  | .file c => .file (canonContent (pathSuffix n) c)
  | .dir sub => .dir (sortEntries (canonEntriesList sub))

/-- Canonicalize each entry of a directory. -/
def canonEntriesList : List (String × FsTree) → List (String × FsTree)
  | [] => []
  | (n, t) :: rest => (n, canonTree n t) :: canonEntriesList rest
end

/-- Canonicalize one directory entry. -/
def canonEntryFn (e : String × FsTree) : String × FsTree :=
  (e.1, canonTree e.1 e.2)

/-- `nodup` on strings, as an executable check. -/
def nodupB : List String → Bool
  | [] => true
  | x :: xs => !(xs.contains x) && nodupB xs

/-- The sanitized dataclass-field candidate the reader derives from an
entry: the snake-cased entry name for directories, the snake-cased stem for
files. -/
def fieldCandidate : String × FsTree → String
  | (n, .dir _) => _snake_case n
  | (n, .file _) => _snake_case (pathStem n)

/-- A well-formed entry name: non-empty, no path separator and not holding
both braces (so the reader's pinned name hint stays a `Literal`). -/
def validName (n : String) : Bool :=
  n ≠ "" && !(strHasChar n '/') &&
  !(strHasChar n lbrace && strHasChar n rbrace)

mutual
/-- Validity of the tree behind an entry named `n`, for the amended
round-trip claim: files carry a recognized (lower-case) extension, no
carriage returns, and decodable, re-encodable, non-null payloads;
directories are recursively valid with distinct entry names and distinct
sanitized field candidates. -/
def validTree (n : String) : FsTree → Bool
  | .file c =>
    SUPPORTED_EXTENSIONS.contains (pathSuffix n) &&
    !(strHasChar c '\r') &&
    (if pathSuffix n = ".json" then
       match decodeJson c with
       | some v => !(isNonePy v) && (jsonEncPretty 0 v).isSome
       | none => false
     else if pathSuffix n = ".jsonl" then
       match decodeJsonlRows (jsonlLines c) with
       | some rows => (_write_payload.rowsJoin rows).isSome
       | none => false
     else true)
  | .dir sub =>
    nodupB (sub.map Prod.fst) && nodupB (sub.map fieldCandidate) &&
    validEntriesB sub

/-- The entry-wise part of directory validity. -/
def validEntriesB : List (String × FsTree) → Bool
  | [] => true
  | (n, t) :: rest => validName n && validTree n t && validEntriesB rest
end

/-- Validity of one entry. -/
def validEntry (e : String × FsTree) : Bool :=
  validTree e.1 e.2

/-- Validity of a whole directory: valid names and entries, distinct entry
names, and distinct sanitized field candidates. -/
def validDirB (es : List (String × FsTree)) : Bool :=
  nodupB (es.map Prod.fst) && nodupB (es.map fieldCandidate) &&
  validEntriesB es

mutual
/-- Depth of a tree (files are leaves). -/
def depthT : FsTree → Nat
  | .file _ => 0
  | .dir es => depthE es + 1

/-- Depth of a directory's entries. -/
def depthE : List (String × FsTree) → Nat
  | [] => 0
  | (_, t) :: rest => max (depthT t) (depthE rest)
end

/-- A member's tree depth is bounded by the entry-list depth. -/
theorem depthT_le_depthE :
    ∀ (es : List (String × FsTree)) (n : String) (t : FsTree),
      (n, t) ∈ es → depthT t ≤ depthE es := by
  intro es
  induction es with
  | nil => intro n t h; exact absurd h (by simp)
  | cons hd tl ih =>
    intro n t h
    obtain ⟨m, u⟩ := hd
    rcases List.mem_cons.mp h with heq | hmem
    · injection heq with h1 h2
      subst h2
      rw [depthE]
      exact Nat.le_max_left _ _
    · rw [depthE]
      exact le_trans (ih n t hmem) (Nat.le_max_right _ _)

/-- Sorted insertion is a permutation of consing. -/
theorem insertEntry_perm (x : String × FsTree) :
    ∀ l, List.Perm (insertEntry x l) (x :: l) := by
  intro l
  induction l with
  | nil => exact List.Perm.refl _
  | cons hd tl ih =>
    rw [insertEntry]
    split
    · exact List.Perm.refl _
    · exact List.Perm.trans (List.Perm.cons hd ih) (List.Perm.swap x hd tl)

/-- The reader's entry sort is a permutation. -/
theorem sortEntries_perm :
    ∀ l : List (String × FsTree), List.Perm (sortEntries l) l := by
  intro l
  induction l with
  | nil => exact List.Perm.refl _
  | cons hd tl ih =>
    rw [sortEntries, List.foldr_cons]
    exact List.Perm.trans
      (insertEntry_perm hd (List.foldr insertEntry [] tl))
      (List.Perm.cons hd ih)

/-- `nodupB` agrees with `List.Nodup`. -/
theorem nodupB_iff : ∀ l : List String, nodupB l = true ↔ l.Nodup := by
  intro l
  induction l with
  | nil => simp [nodupB]
  | cons x xs ih =>
    rw [nodupB, List.nodup_cons, Bool.and_eq_true, ih]
    simp

/-- Entry-wise validity as a statement about members. -/
theorem validEntriesB_iff :
    ∀ es : List (String × FsTree), validEntriesB es = true ↔
      ∀ p ∈ es, validName p.1 = true ∧ validTree p.1 p.2 = true := by
  intro es
  induction es with
  | nil => simp [validEntriesB]
  | cons hd tl ih =>
    obtain ⟨n, t⟩ := hd
    rw [validEntriesB, Bool.and_eq_true, Bool.and_eq_true, ih]
    constructor
    · rintro ⟨⟨h1, h2⟩, h3⟩ p hp
      rcases List.mem_cons.mp hp with heq | hmem
      · subst heq; exact ⟨h1, h2⟩
      · exact h3 p hmem
    · intro h
      exact ⟨⟨(h (n, t) (List.mem_cons_self _ _)).1,
              (h (n, t) (List.mem_cons_self _ _)).2⟩,
             fun p hp => h p (List.mem_cons_of_mem _ hp)⟩

/-- Canonicalization preserves an entry's name. -/
theorem canonEntryFn_fst (e : String × FsTree) : (canonEntryFn e).1 = e.1 := by
  obtain ⟨n, t⟩ := e
  cases t <;> rfl

/-- The cons equation of `canonEntriesList`, for an unsplit pair. -/
theorem canonEntriesList_cons (e : String × FsTree) (l : List (String × FsTree)) :
    canonEntriesList (e :: l) = canonEntryFn e :: canonEntriesList l := by
  obtain ⟨n, t⟩ := e
  rfl

/-- Canonicalization preserves an entry's file/directory discriminator. -/
theorem canonEntryFn_isFile (e : String × FsTree) :
    isFileEntry (canonEntryFn e).2 = isFileEntry e.2 := by
  obtain ⟨n, t⟩ := e
  cases t <;> rfl

/-- Canonicalization preserves the sort order. -/
theorem entryLe_canon (a b : String × FsTree) :
    entryLe (canonEntryFn a) (canonEntryFn b) = entryLe a b := by
  unfold entryLe
  rw [canonEntryFn_fst, canonEntryFn_fst, canonEntryFn_isFile,
    canonEntryFn_isFile]

/-- Canonicalization commutes with sorted insertion. -/
theorem canon_insertEntry (x : String × FsTree) :
    ∀ l, canonEntriesList (insertEntry x l) =
      insertEntry (canonEntryFn x) (canonEntriesList l) := by
  intro l
  induction l with
  | nil => rfl
  | cons hd tl ih =>
    rw [insertEntry, canonEntriesList_cons]
    by_cases h : entryLe x hd = true
    · rw [if_pos h, canonEntriesList_cons, canonEntriesList_cons, insertEntry,
        if_pos ((entryLe_canon x hd).symm ▸ h)]
    · rw [if_neg h, canonEntriesList_cons, ih, insertEntry,
        if_neg ((entryLe_canon x hd).symm ▸ h)]

/-- Canonicalization commutes with the reader's sort. -/
theorem canon_sortEntries :
    ∀ es, canonEntriesList (sortEntries es) =
      sortEntries (canonEntriesList es) := by
  intro es
  induction es with
  | nil => rfl
  | cons hd tl ih =>
    rw [sortEntries, List.foldr_cons,
      show List.foldr insertEntry [] tl = sortEntries tl from rfl,
      canon_insertEntry, ih, canonEntriesList_cons]
    rfl

/-- A key absent from the name column is not found by `lookup`. -/
theorem lookup_eq_none_of_not_mem_fst {β : Type} :
    ∀ (l : List (String × β)) (n : String), n ∉ l.map Prod.fst →
      l.lookup n = none := by
  intro l
  induction l with
  | nil => intro n h; rfl
  | cons hd tl ih =>
    intro n h
    rw [List.map_cons, List.mem_cons] at h
    push_neg at h
    rw [List.lookup]
    simp only [beq_eq_false_iff_ne.mpr h.1]
    exact ih n h.2

/-- `lookup` skips a block of differently named entries. -/
theorem lookup_append_right {β : Type} :
    ∀ (l r : List (String × β)) (n : String), n ∉ l.map Prod.fst →
      (l ++ r).lookup n = r.lookup n := by
  intro l
  induction l with
  | nil => intro r n h; rfl
  | cons hd tl ih =>
    intro r n h
    rw [List.map_cons, List.mem_cons] at h
    push_neg at h
    rw [List.cons_append, List.lookup]
    simp only [beq_eq_false_iff_ne.mpr h.1]
    exact ih r n h.2

/-- With distinct names, `lookup` recovers each binding. -/
theorem nodup_lookup_self {β : Type} :
    ∀ (l : List (String × β)), (l.map Prod.fst).Nodup →
      ∀ p ∈ l, l.lookup p.1 = some p.2 := by
  intro l
  induction l with
  | nil => intro _ p hp; exact absurd hp (by simp)
  | cons hd tl ih =>
    intro hnd p hp
    rw [List.map_cons, List.nodup_cons] at hnd
    rcases List.mem_cons.mp hp with heq | hmem
    · subst heq
      rw [List.lookup, beq_self_eq_true]
    · rw [List.lookup]
      have hne : p.1 ≠ hd.1 := by
        intro he
        exact hnd.1 (he ▸ List.mem_map_of_mem Prod.fst hmem)
      simp only [beq_eq_false_iff_ne.mpr hne]
      exact ih hnd.2 p hmem

/-- `fsSet` appends when the name is fresh. -/
theorem fsSet_fresh (acc : List (String × FsTree)) (n : String) (t : FsTree)
    (h : n ∉ acc.map Prod.fst) : fsSet acc n t = acc ++ [(n, t)] := by
  unfold fsSet
  rw [if_neg]
  intro hc
  rw [List.any_eq_true] at hc
  obtain ⟨kv, hkv, he⟩ := hc
  rw [decide_eq_true_eq] at he
  exact h (he ▸ List.mem_map_of_mem Prod.fst hkv)

/-- `fsSet` replaces the appended entry in place. -/
theorem fsSet_append_last (acc : List (String × FsTree)) (n : String)
    (t t' : FsTree) (h : n ∉ acc.map Prod.fst) :
    fsSet (acc ++ [(n, t)]) n t' = acc ++ [(n, t')] := by
  unfold fsSet
  rw [if_pos]
  · induction acc with
    | nil => simp
    | cons hd tl ih =>
      rw [List.map_cons, List.mem_cons] at h
      push_neg at h
      rw [List.cons_append, List.map_cons, List.cons_append]
      congr 1
      · rw [if_neg]
        intro he
        exact h.1 he.symm
      · exact ih h.2
  · rw [List.any_eq_true]
    exact ⟨(n, t), by simp⟩

/-- Appending strings concatenates their character lists. -/
theorem str_data_append (a b : String) : (a ++ b).data = a.data ++ b.data := by
  obtain ⟨xs⟩ := a
  obtain ⟨ys⟩ := b
  rfl

/-- String append is associative. -/
theorem str_append_assoc (a b c : String) :
    (a ++ b) ++ c = a ++ (b ++ c) := by
  obtain ⟨xs⟩ := a
  obtain ⟨ys⟩ := b
  obtain ⟨zs⟩ := c
  show String.mk ((xs ++ ys) ++ zs) = String.mk (xs ++ (ys ++ zs))
  rw [List.append_assoc]

/-- Splitting at a character that does not occur returns the whole list. -/
theorem splitOnCharList_no_occ (c : Char) :
    ∀ cs : List Char, cs.contains c = false → splitOnCharList c cs = [cs] := by
  intro cs
  induction cs with
  | nil => intro _; rfl
  | cons x xs ih =>
    intro h
    rw [List.contains_cons, Bool.or_eq_false_iff] at h
    rw [splitOnCharList]
    rw [ih h.2, if_neg]
    intro he
    rw [he] at h
    exact absurd h.1 (by simp)

/-- A non-empty, separator-free name is a single path segment. -/
theorem pathSegs_single (n : String) (h1 : n ≠ "")
    (h2 : strHasChar n '/' = false) : pathSegs n = [n] := by
  unfold pathSegs strSplitOnChar
  rw [splitOnCharList_no_occ '/' n.data h2, List.map_cons, List.map_nil]
  show List.filter _ [n] = [n]
  rw [List.filter_cons]
  simp [h1]

/-- The recognized extensions, enumerated. -/
theorem supported_cases (s : String)
    (h : SUPPORTED_EXTENSIONS.contains s = true) :
    s = ".txt" ∨ s = ".json" ∨ s = ".jsonl" := by
  have h' : s ∈ SUPPORTED_EXTENSIONS := by
    simpa [List.contains_iff_exists_mem_beq] using h
  simpa [SUPPORTED_EXTENSIONS] using h'

/-- The stem and suffix reassemble the file name. -/
theorem stem_suffix_append (n : String) (h : pathSuffix n ≠ "") :
    pathStem n ++ pathSuffix n = n := by
  unfold pathSuffix at h
  unfold pathStem pathSuffix
  cases hidx : lastIdxOf n.data '.' with
  | none =>
    rw [hidx] at h
    dsimp only at h
    exact absurd rfl h
  | some i =>
    rw [hidx] at h
    dsimp only at h ⊢
    by_cases hc : 0 < i ∧ i < n.data.length - 1
    · rw [if_pos hc, if_pos hc]
      show String.mk (List.take i n.data ++ List.drop i n.data) = n
      rw [List.take_append_drop]
    · rw [if_neg hc] at h
      exact absurd rfl h

/-- A name with a non-empty suffix has a non-empty stem. -/
theorem pathStem_ne_empty (n : String) (h : pathSuffix n ≠ "") :
    pathStem n ≠ "" := by
  unfold pathSuffix at h
  unfold pathStem
  cases hidx : lastIdxOf n.data '.' with
  | none =>
    rw [hidx] at h
    dsimp only at h
    exact absurd rfl h
  | some i =>
    rw [hidx] at h
    dsimp only at h ⊢
    by_cases hc : 0 < i ∧ i < n.data.length - 1
    · rw [if_pos hc]
      intro he
      have hdata : List.take i n.data = [] := congrArg String.data he
      have hle : i ≤ n.data.length :=
        le_of_lt (lt_of_lt_of_le hc.2 (Nat.sub_le _ _))
      have hlen : (List.take i n.data).length = i := by
        rw [List.length_take]
        exact min_eq_left hle
      rw [hdata, List.length_nil] at hlen
      exact absurd hlen.symm (Nat.pos_iff_ne_zero.mp hc.1)
    · rw [if_neg hc] at h
      exact absurd rfl h

/-- Characters of the stem occur in the whole name. -/
theorem strHasChar_pathStem (n : String) (c : Char)
    (h : strHasChar (pathStem n) c = true) : strHasChar n c = true := by
  unfold pathStem at h
  cases hidx : lastIdxOf n.data '.' with
  | none => rw [hidx] at h; exact h
  | some i =>
    rw [hidx] at h
    dsimp only at h
    by_cases hc : 0 < i ∧ i < n.data.length - 1
    · rw [if_pos hc] at h
      unfold strHasChar at h ⊢
      rw [List.contains_iff_exists_mem_beq] at h ⊢
      obtain ⟨b, hb, he⟩ := h
      exact ⟨b, List.mem_of_mem_take hb, he⟩
    · rw [if_neg hc] at h
      exact h

/-- Lower-casing fixes the recognized extensions. -/
theorem pyLower_supported (s : String)
    (h : SUPPORTED_EXTENSIONS.contains s = true) : pyLower s = s := by
  rcases supported_cases s h with h1 | h1 | h1 <;> subst h1 <;> decide

/-- The annotation synthesized for a JSON value never mentions `Dir`. -/
theorem contains_dir_json_ann (v : PyVal) :
    _contains_dir (_annotation_for_json_value v) = false := by
  cases v <;> rfl

/-- The annotation synthesized for a JSON-lines payload never mentions
`Dir`. -/
theorem contains_dir_jsonl_ann (rows : List PyVal) :
    _contains_dir (.listA [_annotation_for_jsonl rows]) = false := by
  cases rows with
  | nil => rfl
  | cons first rest =>
    show _contains_dir_list [_annotation_for_json_value first] = false
    rw [_contains_dir_list, _contains_dir_list, contains_dir_json_ann]
    rfl

/-- `_unique_field_name` returns an unused candidate unchanged. -/
theorem unique_field_name_fresh (existing : List String) (cand : String)
    (h : cand ∉ existing) : _unique_field_name existing cand = cand := by
  have hc : existing.contains cand = false := by
    rw [Bool.eq_false_iff]
    intro hcc
    rw [List.contains_iff_exists_mem_beq] at hcc
    obtain ⟨b, hb, he⟩ := hcc
    rw [beq_iff_eq] at he
    exact h (he ▸ hb)
  unfold _unique_field_name
  rw [if_pos]
  intro hcc
  rw [hc] at hcc
  exact Bool.false_ne_true hcc

/-- The three components of a valid entry name. -/
theorem validName_spec (n : String) (h : validName n = true) :
    n ≠ "" ∧ strHasChar n '/' = false ∧
      ¬(strHasChar n lbrace = true ∧ strHasChar n rbrace = true) := by
  unfold validName at h
  rw [Bool.and_eq_true, Bool.and_eq_true] at h
  refine ⟨of_decide_eq_true h.1.1, ?_, ?_⟩
  · rw [Bool.not_eq_true'] at h
    exact h.1.2
  · intro hb
    rw [Bool.not_eq_true'] at h
    rw [hb.1, hb.2] at h
    exact absurd h.2 (by simp)

/-- `validTree` on a directory is directory validity. -/
theorem validTree_dir (n : String) (sub : List (String × FsTree)) :
    validTree n (.dir sub) = validDirB sub := rfl

/-- Directory validity, decomposed. -/
theorem validDirB_spec (es : List (String × FsTree))
    (h : validDirB es = true) :
    (es.map Prod.fst).Nodup ∧ (es.map fieldCandidate).Nodup ∧
      ∀ p ∈ es, validName p.1 = true ∧ validTree p.1 p.2 = true := by
  unfold validDirB at h
  rw [Bool.and_eq_true, Bool.and_eq_true] at h
  exact ⟨(nodupB_iff _).mp h.1.1, (nodupB_iff _).mp h.1.2,
         (validEntriesB_iff _).mp h.2⟩

/-- Directory validity transfers to the sorted entry list. -/
theorem validDirB_sorted_spec (es : List (String × FsTree))
    (h : validDirB es = true) :
    ((sortEntries es).map Prod.fst).Nodup ∧
      ((sortEntries es).map fieldCandidate).Nodup ∧
      ∀ p ∈ sortEntries es, validName p.1 = true ∧ validTree p.1 p.2 = true := by
  obtain ⟨h1, h2, h3⟩ := validDirB_spec es h
  refine ⟨?_, ?_, ?_⟩
  · exact (List.Perm.nodup_iff (List.Perm.map Prod.fst (sortEntries_perm es))).mpr h1
  · exact (List.Perm.nodup_iff (List.Perm.map fieldCandidate (sortEntries_perm es))).mpr h2
  · intro p hp
    exact h3 p ((mem_sortEntries p es).mp hp)

/-- File validity, decomposed per extension. -/
theorem validTree_file_spec (n c : String)
    (h : validTree n (.file c) = true) :
    SUPPORTED_EXTENSIONS.contains (pathSuffix n) = true ∧
    (pathSuffix n = ".json" →
      ∃ v, decodeJson c = some v ∧ isNonePy v = false ∧
        ∃ enc, jsonEncPretty 0 v = some enc) ∧
    (pathSuffix n = ".jsonl" →
      ∃ rows, decodeJsonlRows (jsonlLines c) = some rows ∧
        ∃ out, _write_payload.rowsJoin rows = some out) := by
  rw [validTree] at h
  rw [Bool.and_eq_true, Bool.and_eq_true] at h
  obtain ⟨⟨hs, hcr⟩, hif⟩ := h
  refine ⟨hs, ?_, ?_⟩
  · intro hj
    rw [hj] at hif
    rw [if_pos rfl] at hif
    cases hd : decodeJson c with
    | none =>
      rw [hd] at hif
      exact absurd hif (by simp)
    | some v =>
      rw [hd] at hif
      dsimp only at hif
      rw [Bool.and_eq_true] at hif
      refine ⟨v, rfl, ?_, ?_⟩
      · rw [Bool.not_eq_true'] at hif
        exact hif.1
      · exact Option.isSome_iff_exists.mp hif.2
  · intro hj
    rw [hj] at hif
    rw [if_neg (by decide), if_pos rfl] at hif
    cases hd : decodeJsonlRows (jsonlLines c) with
    | none =>
      rw [hd] at hif
      exact absurd hif (by simp)
    | some rows =>
      rw [hd] at hif
      dsimp only at hif
      exact ⟨rows, rfl, Option.isSome_iff_exists.mp hif⟩

/-- Normalizing a plain non-empty, non-template string yields a
`self`-sourced literal hint. -/
theorem normalize_hint_literal (ename n : String) (hne : n ≠ "")
    (hbr : ¬(strHasChar n lbrace = true ∧ strHasChar n rbrace = true)) :
    _normalize_hint_entry ename (.dStr n) =
      .ok (some ⟨.LITERAL, .hvStr n, "self"⟩) := by
  have h1 : _normalize_hint_entry ename (.dStr n) =
      classifyHintValue ename (.dStr n) (pyLower (pyStrip "self")) := rfl
  rw [h1]
  unfold classifyHintValue
  dsimp only
  rw [if_neg hne, if_neg hbr]
  rfl

/-- A one-entry layer mapping holding a literal name hint. -/
theorem normalize_layer_name (n : String) (hne : n ≠ "")
    (hbr : ¬(strHasChar n lbrace = true ∧ strHasChar n rbrace = true)) :
    _normalize_metadata_layer [("name", .dStr n)] =
      .ok [("name", .moHint ⟨.LITERAL, .hvStr n, "self"⟩)] := by
  rw [_normalize_metadata_layer]
  rw [if_pos rfl, normalize_hint_literal "name" n hne hbr]
  rfl

/-- A layer mapping holding a literal name hint and an extension. -/
theorem normalize_layer_name_ext (stem ext : String) (hne : stem ≠ "")
    (hbr : ¬(strHasChar stem lbrace = true ∧ strHasChar stem rbrace = true))
    (hext : _normalize_extension_value ext = .ok ext) :
    _normalize_metadata_layer [("name", .dStr stem), ("extension", .dStr ext)] =
      .ok [("name", .moHint ⟨.LITERAL, .hvStr stem, "self"⟩),
           ("extension", .moExt ext)] := by
  rw [_normalize_metadata_layer]
  rw [if_pos rfl, normalize_hint_literal "name" stem hne hbr]
  rw [_normalize_metadata_layer]
  rw [if_neg (by decide), if_pos rfl, hext]
  rfl

/-- Classifying a `Dir[...]` annotation referencing a bundle class. -/
theorem classify_dir_bundle (fname : String) (d : BundleDefinition) :
    _classify_field (.dirA [.bundleCls d]) fname = .ok .DIR := rfl

/-- Classifying a `File[...]` annotation whose payload is `Dir`-free. -/
theorem classify_file_payload (fname : String) (p : Ann)
    (h : _contains_dir p = false) :
    _classify_field (.fileA [p]) fname = .ok .FILE := by
  unfold _classify_field
  have h1 : _strip_annotated (.fileA [p]) = .fileA [p] := rfl
  rw [h1]
  dsimp only
  unfold _validate_file_annotation
  have h2 : annArgs (.fileA [p]) = [p] := rfl
  rw [h2]
  dsimp only
  rw [if_neg]
  intro hcc
  rw [h] at hcc
  exact Bool.false_ne_true hcc

/-- With inference off, `_maybe_attach_extension` is the identity. -/
theorem maybe_attach_false (metadata : List BundleMetadata) (ann : Ann) :
    _maybe_attach_extension metadata ann false = .ok metadata := by
  unfold _maybe_attach_extension
  rw [if_pos (fun hcc => Bool.false_ne_true hcc)]

/-- With an extension already present, `_maybe_attach_extension` is the
identity. -/
theorem maybe_attach_has_ext (metadata : List BundleMetadata) (ann : Ann)
    (h : _metadata_has_extension metadata = true) :
    _maybe_attach_extension metadata ann true = .ok metadata := by
  unfold _maybe_attach_extension
  rw [if_neg (by simp), if_pos h]

/-- `_normalize_metadata` of a Dir field carrying only a pinned literal
name. -/
theorem normalize_metadata_dir (ann : Ann) (n : String)
    (htop : _top_layer ann = .ok .LDir) (hne : n ≠ "")
    (hbr : ¬(strHasChar n lbrace = true ∧ strHasChar n rbrace = true)) :
    _normalize_metadata ann [(.kStr "name", .dStr n)] false =
      .ok [⟨.LDir, 0, [("name", .moHint ⟨.LITERAL, .hvStr n, "self"⟩)]⟩] := by
  unfold _normalize_metadata
  rw [htop]
  have hp : partitionMetadataKeys [] [] [(.kStr "name", .dStr n)] =
      .ok ([("name", .dStr n)], []) := rfl
  rw [hp]
  dsimp only
  rw [if_neg (by simp), normalize_layer_name n hne hbr]
  dsimp only
  rw [show expandLayers [] = Except.ok [] from rfl]
  dsimp only
  rw [List.singleton_append, maybe_attach_false]

/-- `_normalize_metadata` of a File field carrying a pinned literal name and
an already-normalized extension. -/
theorem normalize_metadata_file (ann : Ann) (stem ext : String)
    (htop : _top_layer ann = .ok .LFile) (hne : stem ≠ "")
    (hbr : ¬(strHasChar stem lbrace = true ∧ strHasChar stem rbrace = true))
    (hext : _normalize_extension_value ext = .ok ext) :
    _normalize_metadata ann
        [(.kStr "name", .dStr stem), (.kStr "extension", .dStr ext)] true =
      .ok [⟨.LFile, 0, [("name", .moHint ⟨.LITERAL, .hvStr stem, "self"⟩),
                        ("extension", .moExt ext)]⟩] := by
  unfold _normalize_metadata
  rw [htop]
  have hp : partitionMetadataKeys [] []
        [(.kStr "name", .dStr stem), (.kStr "extension", .dStr ext)] =
      .ok ([("name", .dStr stem), ("extension", .dStr ext)], []) := rfl
  rw [hp]
  dsimp only
  rw [if_neg (by simp), normalize_layer_name_ext stem ext hne hbr hext]
  dsimp only
  rw [show expandLayers [] = Except.ok [] from rfl]
  dsimp only
  rw [List.singleton_append, maybe_attach_has_ext]
  rfl

/-- `buildFields` step for a pinned-name Dir declaration. -/
theorem buildFields_dir_cons (fname n : String) (d : BundleDefinition)
    (rest : List FieldDecl) (more : List BundleField) (hne : n ≠ "")
    (hbr : ¬(strHasChar n lbrace = true ∧ strHasChar n rbrace = true))
    (hrest : _build_bundle_definition.buildFields rest = .ok more) :
    _build_bundle_definition.buildFields
        (⟨fname, .dirA [.bundleCls d], [(.kStr "name", .dStr n)]⟩ :: rest) =
      .ok (BundleField.mk fname .DIR (.dirA [.bundleCls d])
            [⟨.LDir, 0, [("name", .moHint ⟨.LITERAL, .hvStr n, "self"⟩)]⟩]
            false :: more) := by
  rw [_build_bundle_definition.buildFields, classify_dir_bundle]
  dsimp only
  rw [if_pos (Or.inl rfl),
    show decide (FieldKind.DIR = FieldKind.FILE) = false from rfl,
    normalize_metadata_dir (.dirA [.bundleCls d]) n rfl hne hbr]
  dsimp only
  rw [hrest]
  rfl

/-- `buildFields` step for a pinned-name, pinned-extension File
declaration. -/
theorem buildFields_file_cons (fname stem ext : String) (p : Ann)
    (rest : List FieldDecl) (more : List BundleField)
    (hcd : _contains_dir p = false) (hne : stem ≠ "")
    (hbr : ¬(strHasChar stem lbrace = true ∧ strHasChar stem rbrace = true))
    (hext : _normalize_extension_value ext = .ok ext)
    (hrest : _build_bundle_definition.buildFields rest = .ok more) :
    _build_bundle_definition.buildFields
        (⟨fname, .fileA [p],
          [(.kStr "name", .dStr stem), (.kStr "extension", .dStr ext)]⟩ ::
          rest) =
      .ok (BundleField.mk fname .FILE (.fileA [p])
            [⟨.LFile, 0, [("name", .moHint ⟨.LITERAL, .hvStr stem, "self"⟩),
                          ("extension", .moExt ext)]⟩] false :: more) := by
  rw [_build_bundle_definition.buildFields, classify_file_payload fname p hcd]
  dsimp only
  rw [if_pos (Or.inr rfl),
    show decide (FieldKind.FILE = FieldKind.FILE) = true from rfl,
    normalize_metadata_file (.fileA [p]) stem ext rfl hne hbr hext]
  dsimp only
  rw [hrest]
  rfl

/-- Creating a fresh single-segment directory appends an empty directory. -/
theorem fsMkdirp_single (entries : List (String × FsTree)) (n : String)
    (hfresh : n ∉ entries.map Prod.fst) :
    fsMkdirp entries [n] = .ok (entries ++ [(n, .dir [])]) := by
  rw [fsMkdirp]
  rw [lookup_eq_none_of_not_mem_fst entries n hfresh]
  dsimp only
  rw [show fsMkdirp [] [] = Except.ok [] from rfl]
  dsimp only
  rw [fsSet_fresh entries n _ hfresh]

/-- Writing a fresh single-segment file appends it. -/
theorem fsWriteFileAt_single (entries : List (String × FsTree)) (n : String)
    (content : String) (hfresh : n ∉ entries.map Prod.fst) :
    fsWriteFileAt entries [n] content =
      .ok (entries ++ [(n, .file content)]) := by
  rw [fsWriteFileAt]
  rw [lookup_eq_none_of_not_mem_fst entries n hfresh]
  dsimp only
  rw [fsSet_fresh entries n _ hfresh]

/-- Rendering through a freshly created single-segment directory runs the
continuation in the empty directory and stores the result. -/
theorem fsRenderAt_single (entries : List (String × FsTree)) (n : String)
    (k : List (String × FsTree) → Option RenderErr × List (String × FsTree))
    (hfresh : n ∉ entries.map Prod.fst) :
    fsRenderAt (entries ++ [(n, .dir [])]) [n] k =
      ((k []).1, entries ++ [(n, .dir (k []).2)]) := by
  rw [fsRenderAt]
  rw [lookup_append_right entries [(n, FsTree.dir [])] n hfresh]
  rw [show List.lookup n [(n, FsTree.dir [])] = some (FsTree.dir []) from
    by simp [List.lookup]]
  dsimp only
  rw [fsSet_append_last entries n _ _ hfresh]
  rfl

/-- Rendering one pinned-name Dir field writes the child bundle into a fresh
single-segment directory. -/
theorem render_dir_step
    (recur : BundleDefinition → PyVal → List (String × FsTree) →
      Option RenderErr × List (String × FsTree))
    (fname n : String) (ann : Ann) (d : BundleDefinition)
    (kw : List (String × PyVal)) (inst : PyVal)
    (entries out : List (String × FsTree))
    (hne : n ≠ "") (hsl : strHasChar n '/' = false)
    (hfresh : n ∉ entries.map Prod.fst)
    (hrec : recur d (.vInst (some d) kw) [] = (none, out)) :
    _render_dir_field recur
      (BundleField.mk fname .DIR ann
        [⟨.LDir, 0, [("name", .moHint ⟨.LITERAL, .hvStr n, "self"⟩)]⟩] false)
      (.vInst (some d) kw) inst entries =
      (none, entries ++ [(n, .dir out)]) := by
  unfold _render_dir_field
  rw [show _iter_dir_entries (.vInst (some d) kw) =
    [(none, PyVal.vInst (some d) kw)] from rfl]
  rw [renderDirEntryLoop]
  rw [show _compute_name
      (BundleField.mk fname .DIR ann
        [⟨.LDir, 0, [("name", .moHint ⟨.LITERAL, .hvStr n, "self"⟩)]⟩] false)
      inst (.vInst (some d) kw) none = Except.ok n from rfl]
  dsimp only
  rw [pathSegs_single n hne hsl, fsMkdirp_single entries n hfresh]
  dsimp only
  rw [fsRenderAt_single entries n _ hfresh]
  dsimp only
  rw [hrec]
  dsimp only
  rw [renderDirEntryLoop]

/-- Rendering one pinned-name, pinned-extension File field writes the encoded
payload to a fresh single-segment file. -/
theorem render_file_step (fname stem ext n : String) (ann : Ann)
    (value : PyVal) (inst : PyVal) (entries : List (String × FsTree))
    (content : String)
    (hne : stem ≠ "") (hext_ne : ext ≠ "")
    (hname : stem ++ "." ++ ext = n)
    (hnne : n ≠ "") (hsl : strHasChar n '/' = false)
    (hfresh : n ∉ entries.map Prod.fst)
    (hwp : _write_payload value (some ext) = .ok content) :
    _render_file_field
      (BundleField.mk fname .FILE ann
        [⟨.LFile, 0, [("name", .moHint ⟨.LITERAL, .hvStr stem, "self"⟩),
                      ("extension", .moExt ext)]⟩] false)
      value inst entries =
      (none, entries ++ [(n, .file content)]) := by
  unfold _render_file_field
  dsimp only
  rw [show _compute_name
      (BundleField.mk fname .FILE ann
        [⟨.LFile, 0, [("name", .moHint ⟨.LITERAL, .hvStr stem, "self"⟩),
                      ("extension", .moExt ext)]⟩] false)
      inst value none = Except.ok stem from rfl]
  dsimp only
  rw [if_neg hne]
  dsimp only [BundleField.metadata]
  rw [show metaExtension (_metadata_for_layer
      [⟨.LFile, 0, [("name", .moHint ⟨.LITERAL, .hvStr stem, "self"⟩),
                    ("extension", .moExt ext)]⟩] Layer.LFile) =
    some ext from rfl]
  dsimp only
  rw [if_neg hext_ne, hname, hwp]
  dsimp only
  rw [pathSegs_single n hnne hsl,
    fsWriteFileAt_single entries n content hfresh]

/-- A `txt` payload is written verbatim and is already canonical. -/
theorem write_payload_txt_canon (c : String) :
    _write_payload (.vStr c) (some "txt") = .ok (canonContent ".txt" c) := rfl

/-- Writing a decoded JSON payload produces the canonical content of its
source file. -/
theorem write_payload_json_canon (c : String) (payload : PyVal) (enc : String)
    (hdec : decodeJson c = some payload)
    (henc : jsonEncPretty 0 payload = some enc) :
    _write_payload payload (some "json") = .ok (canonContent ".json" c) := by
  unfold canonContent
  rw [if_pos rfl, hdec]
  cases payload with
  | vStr s => rfl
  | vBytes b => rfl
  | vNone =>
    dsimp only
    rw [show _write_payload PyVal.vNone (some "json") =
      (match jsonEncPretty 0 PyVal.vNone with
       | some s => Except.ok s
       | none => Except.error RenderErr.jsonEncodeError) from rfl, henc]
    rfl
  | vBool b =>
    dsimp only
    rw [show _write_payload (PyVal.vBool b) (some "json") =
      (match jsonEncPretty 0 (PyVal.vBool b) with
       | some s => Except.ok s
       | none => Except.error RenderErr.jsonEncodeError) from rfl, henc]
    rfl
  | vInt m =>
    dsimp only
    rw [show _write_payload (PyVal.vInt m) (some "json") =
      (match jsonEncPretty 0 (PyVal.vInt m) with
       | some s => Except.ok s
       | none => Except.error RenderErr.jsonEncodeError) from rfl, henc]
    rfl
  | vList xs =>
    dsimp only
    rw [show _write_payload (PyVal.vList xs) (some "json") =
      (match jsonEncPretty 0 (PyVal.vList xs) with
       | some s => Except.ok s
       | none => Except.error RenderErr.jsonEncodeError) from rfl, henc]
    rfl
  | vDict m =>
    dsimp only
    rw [show _write_payload (PyVal.vDict m) (some "json") =
      (match jsonEncPretty 0 (PyVal.vDict m) with
       | some s => Except.ok s
       | none => Except.error RenderErr.jsonEncodeError) from rfl, henc]
    rfl
  | vInst od attrs =>
    dsimp only
    rw [show _write_payload (PyVal.vInst od attrs) (some "json") =
      (match jsonEncPretty 0 (PyVal.vInst od attrs) with
       | some s => Except.ok s
       | none => Except.error RenderErr.jsonEncodeError) from rfl, henc]
    rfl

/-- Writing a decoded JSON-lines payload produces the canonical content of
its source file. -/
theorem write_payload_jsonl_canon (c : String) (rows : List PyVal)
    (out : String)
    (hdec : decodeJsonlRows (jsonlLines c) = some rows)
    (hjoin : _write_payload.rowsJoin rows = some out) :
    _write_payload (.vList rows) (some "jsonl") =
      .ok (canonContent ".jsonl" c) := by
  unfold canonContent
  rw [if_neg (by decide), if_pos rfl, hdec]
  dsimp only
  rw [show _write_payload (PyVal.vList rows) (some "jsonl") =
    (match _write_payload.rowsJoin rows with
     | some s => Except.ok s
     | none => Except.error RenderErr.jsonEncodeError) from rfl, hjoin]
  rfl

/-- After appending a fresh entry, the remaining names stay fresh. -/
theorem fresh_after_append (tl : List (String × FsTree)) (n : String)
    (entries : List (String × FsTree)) (u : FsTree)
    (htlfresh : ∀ p ∈ tl, p.1 ∉ entries.map Prod.fst)
    (hn : n ∉ tl.map Prod.fst) :
    ∀ p ∈ tl, p.1 ∉ (entries ++ [(n, u)]).map Prod.fst := by
  intro p hp hmem
  rw [List.map_append, List.mem_append] at hmem
  rcases hmem with h1 | h1
  · exact htlfresh p hp h1
  · rw [List.map_singleton, List.mem_singleton] at h1
    have h2 : p.1 = n := h1
    exact hn (h2 ▸ List.mem_map_of_mem Prod.fst hp)

/-- After recording a distinct candidate, the remaining candidates stay
fresh. -/
theorem cand_fresh_after (tl : List (String × FsTree)) (c : String)
    (used : List String)
    (h1 : ∀ p ∈ tl, fieldCandidate p ∉ used)
    (h2 : c ∉ tl.map fieldCandidate) :
    ∀ p ∈ tl, fieldCandidate p ∉ used ++ [c] := by
  intro p hp hmem
  rcases List.mem_append.mp hmem with hm | hm
  · exact h1 p hp hm
  · rw [List.mem_singleton] at hm
    exact h2 (hm ▸ List.mem_map_of_mem fieldCandidate hp)

set_option maxHeartbeats 1000000 in
/-- Combined reader/writer loop invariant: a block of valid sorted entries
with fresh, distinct field candidates builds into declarations whose fields
render — on any instance serving the built keyword arguments and into any
disjoint accumulator — exactly the canonicalized entries. -/
theorem roundtrip_loop (f1 : Nat)
    (recW : BundleDefinition → PyVal → List (String × FsTree) →
      Option RenderErr × List (String × FsTree)) :
    ∀ (ses : List (String × FsTree)) (used : List String),
      (∀ p ∈ ses, validName p.1 = true ∧ validTree p.1 p.2 = true) →
      (ses.map fieldCandidate).Nodup →
      (∀ p ∈ ses, fieldCandidate p ∉ used) →
      (ses.map Prod.fst).Nodup →
      (∀ (n : String) (sub : List (String × FsTree)), (n, .dir sub) ∈ ses →
        ∃ (d : BundleDefinition) (kw : List (String × PyVal)),
          _build_dir f1 sub = .ok (d, .vInst (some d) kw) ∧
          recW d (.vInst (some d) kw) [] =
            (none, canonEntriesList (sortEntries sub))) →
      ∃ (decls : List FieldDecl) (kwargs : List (String × PyVal))
        (fields : List BundleField),
        buildEntriesLoop (fun sub => _build_dir f1 sub) used ses =
          .ok (decls, kwargs) ∧
        _build_bundle_definition.buildFields decls = .ok fields ∧
        kwargs.map Prod.fst = ses.map fieldCandidate ∧
        ∀ (inst : PyVal) (entries : List (String × FsTree)),
          (∀ p ∈ kwargs, getattrPy inst p.1 = some p.2) →
          (∀ p ∈ ses, p.1 ∉ entries.map Prod.fst) →
          renderFieldLoop recW inst entries fields =
            (none, entries ++ canonEntriesList ses) := by
  intro ses
  induction ses with
  | nil =>
    intro used _ _ _ _ _
    refine ⟨[], [], [], rfl, rfl, rfl, ?_⟩
    intro inst entries _ _
    rw [renderFieldLoop, canonEntriesList, List.append_nil]
  | cons hd tl ih =>
    intro used hval hcand hused hnames hIH
    obtain ⟨n, t⟩ := hd
    have hvhd := hval (n, t) (List.mem_cons_self _ _)
    obtain ⟨hne, hsl, hbr⟩ := validName_spec n hvhd.1
    rw [List.map_cons, List.nodup_cons] at hcand hnames
    have hval' : ∀ p ∈ tl, validName p.1 = true ∧ validTree p.1 p.2 = true :=
      fun p hp => hval p (List.mem_cons_of_mem _ hp)
    cases t with
    | dir sub =>
      obtain ⟨d, kw, hbd, hrecd⟩ := hIH n sub (List.mem_cons_self _ _)
      have hu : _unique_field_name used (_snake_case n) = _snake_case n :=
        unique_field_name_fresh used _
          (hused (n, .dir sub) (List.mem_cons_self _ _))
      obtain ⟨decls', kwargs', fields', hb', hf', hk', hr'⟩ :=
        ih (used ++ [_snake_case n]) hval' hcand.2
          (cand_fresh_after tl (_snake_case n) used
            (fun p hp => hused p (List.mem_cons_of_mem _ hp)) hcand.1)
          hnames.2
          (fun m sub2 hp => hIH m sub2 (List.mem_cons_of_mem _ hp))
      refine ⟨⟨_snake_case n, .dirA [.bundleCls d],
               [(.kStr "name", .dStr n)]⟩ :: decls',
              (_snake_case n, .vInst (some d) kw) :: kwargs',
              BundleField.mk (_snake_case n) .DIR (.dirA [.bundleCls d])
                [⟨.LDir, 0, [("name", .moHint ⟨.LITERAL, .hvStr n, "self"⟩)]⟩]
                false :: fields', ?_, ?_, ?_, ?_⟩
      · rw [buildEntriesLoop]
        dsimp only
        rw [hbd]
        dsimp only
        rw [show twig (some (.dStr n)) none none =
          Except.ok [(MKey.kStr "name", DynVal.dStr n)] from rfl]
        dsimp only
        rw [hu, hb']
      · exact buildFields_dir_cons (_snake_case n) n d decls' fields'
          hne hbr hf'
      · rw [List.map_cons, List.map_cons, hk']
        rfl
      · intro inst entries hget hfresh
        have hgethd : getattrPy inst (_snake_case n) =
            some (.vInst (some d) kw) := hget _ (List.mem_cons_self _ _)
        have hfreshn : n ∉ entries.map Prod.fst :=
          hfresh (n, .dir sub) (List.mem_cons_self _ _)
        rw [renderFieldLoop]
        dsimp only [BundleField.name, BundleField.kind]
        rw [hgethd]
        dsimp only
        rw [show isNonePy (PyVal.vInst (some d) kw) = false from rfl,
          if_neg Bool.false_ne_true]
        rw [render_dir_step recW (_snake_case n) n (.dirA [.bundleCls d]) d kw
          inst entries (canonEntriesList (sortEntries sub))
          hne hsl hfreshn hrecd]
        dsimp only
        rw [hr' inst _ (fun p hp => hget p (List.mem_cons_of_mem _ hp))
          (fresh_after_append tl n entries _
            (fun p hp => hfresh p (List.mem_cons_of_mem _ hp)) hnames.1)]
        rw [canon_sortEntries, List.append_assoc, List.singleton_append,
          canonEntriesList]
        rfl
    | file content =>
      obtain ⟨hsupp, hjson, hjsonl⟩ := validTree_file_spec n content hvhd.2
      have hstem_br : ¬(strHasChar (pathStem n) lbrace = true ∧
          strHasChar (pathStem n) rbrace = true) :=
        fun hb => hbr ⟨strHasChar_pathStem n _ hb.1,
                       strHasChar_pathStem n _ hb.2⟩
      have hu : _unique_field_name used (_snake_case (pathStem n)) =
          _snake_case (pathStem n) :=
        unique_field_name_fresh used _
          (hused (n, .file content) (List.mem_cons_self _ _))
      obtain ⟨decls', kwargs', fields', hb', hf', hk', hr'⟩ :=
        ih (used ++ [_snake_case (pathStem n)]) hval' hcand.2
          (cand_fresh_after tl (_snake_case (pathStem n)) used
            (fun p hp => hused p (List.mem_cons_of_mem _ hp)) hcand.1)
          hnames.2
          (fun m sub2 hp => hIH m sub2 (List.mem_cons_of_mem _ hp))
      rcases supported_cases _ hsupp with hsfx | hsfx | hsfx
      · -- .txt
        have hsuffne : pathSuffix n ≠ "" := by rw [hsfx]; decide
        have hstem_ne : pathStem n ≠ "" := pathStem_ne_empty n hsuffne
        have hname : pathStem n ++ "." ++ "txt" = n := by
          rw [str_append_assoc,
            show ("." : String) ++ "txt" = ".txt" from rfl, ← hsfx]
          exact stem_suffix_append n hsuffne
        refine ⟨⟨_snake_case (pathStem n), .fileA [.aStr],
                 [(.kStr "name", .dStr (pathStem n)),
                  (.kStr "extension", .dStr "txt")]⟩ :: decls',
                (_snake_case (pathStem n), .vStr content) :: kwargs',
                BundleField.mk (_snake_case (pathStem n)) .FILE (.fileA [.aStr])
                  [⟨.LFile, 0,
                    [("name", .moHint ⟨.LITERAL, .hvStr (pathStem n), "self"⟩),
                     ("extension", .moExt "txt")]⟩] false :: fields',
                ?_, ?_, ?_, ?_⟩
        · rw [buildEntriesLoop]
          dsimp only
          rw [hsfx, show pyLower ".txt" = ".txt" from by decide,
            if_neg (by decide),
            show _build_file ".txt" content =
              Except.ok (Ann.fileA [Ann.aStr], PyVal.vStr content) from rfl]
          dsimp only
          rw [show twig (some (.dStr (pathStem n))) (some (lstripDots ".txt"))
              none =
            Except.ok [(MKey.kStr "name", DynVal.dStr (pathStem n)),
                       (MKey.kStr "extension", DynVal.dStr "txt")] from rfl]
          dsimp only
          rw [hu, hb']
        · exact buildFields_file_cons (_snake_case (pathStem n)) (pathStem n)
            "txt" .aStr decls' fields' rfl hstem_ne hstem_br rfl hf'
        · rw [List.map_cons, List.map_cons, hk']
          rfl
        · intro inst entries hget hfresh
          have hgethd : getattrPy inst (_snake_case (pathStem n)) =
              some (.vStr content) := hget _ (List.mem_cons_self _ _)
          have hfreshn : n ∉ entries.map Prod.fst :=
            hfresh (n, .file content) (List.mem_cons_self _ _)
          rw [renderFieldLoop]
          dsimp only [BundleField.name, BundleField.kind]
          rw [hgethd]
          dsimp only
          rw [show isNonePy (PyVal.vStr content) = false from rfl,
            if_neg Bool.false_ne_true]
          rw [render_file_step (_snake_case (pathStem n)) (pathStem n) "txt" n
            (.fileA [.aStr]) (.vStr content) inst entries
            (canonContent ".txt" content) hstem_ne (by decide) hname hne hsl
            hfreshn (write_payload_txt_canon content)]
          dsimp only
          rw [hr' inst _ (fun p hp => hget p (List.mem_cons_of_mem _ hp))
            (fresh_after_append tl n entries _
              (fun p hp => hfresh p (List.mem_cons_of_mem _ hp)) hnames.1)]
          rw [List.append_assoc, List.singleton_append, canonEntriesList,
            canonTree, hsfx]
      · -- .json
        obtain ⟨payload, hdec, hnonone, enc, henc⟩ := hjson hsfx
        have hsuffne : pathSuffix n ≠ "" := by rw [hsfx]; decide
        have hstem_ne : pathStem n ≠ "" := pathStem_ne_empty n hsuffne
        have hname : pathStem n ++ "." ++ "json" = n := by
          rw [str_append_assoc,
            show ("." : String) ++ "json" = ".json" from rfl, ← hsfx]
          exact stem_suffix_append n hsuffne
        refine ⟨⟨_snake_case (pathStem n),
                 .fileA [_annotation_for_json_value payload],
                 [(.kStr "name", .dStr (pathStem n)),
                  (.kStr "extension", .dStr "json")]⟩ :: decls',
                (_snake_case (pathStem n), payload) :: kwargs',
                BundleField.mk (_snake_case (pathStem n)) .FILE
                  (.fileA [_annotation_for_json_value payload])
                  [⟨.LFile, 0,
                    [("name", .moHint ⟨.LITERAL, .hvStr (pathStem n), "self"⟩),
                     ("extension", .moExt "json")]⟩] false :: fields',
                ?_, ?_, ?_, ?_⟩
        · rw [buildEntriesLoop]
          dsimp only
          rw [hsfx, show pyLower ".json" = ".json" from by decide,
            if_neg (by decide),
            show _build_file ".json" content =
              (match decodeJson content with
               | none => Except.error ReadErr.jsonDecodeError
               | some payload =>
                 Except.ok (Ann.fileA [_annotation_for_json_value payload],
                            payload)) from rfl,
            hdec]
          dsimp only
          rw [show twig (some (.dStr (pathStem n))) (some (lstripDots ".json"))
              none =
            Except.ok [(MKey.kStr "name", DynVal.dStr (pathStem n)),
                       (MKey.kStr "extension", DynVal.dStr "json")] from rfl]
          dsimp only
          rw [hu, hb']
        · exact buildFields_file_cons (_snake_case (pathStem n)) (pathStem n)
            "json" (_annotation_for_json_value payload) decls' fields'
            (contains_dir_json_ann payload) hstem_ne hstem_br rfl hf'
        · rw [List.map_cons, List.map_cons, hk']
          rfl
        · intro inst entries hget hfresh
          have hgethd : getattrPy inst (_snake_case (pathStem n)) =
              some payload := hget _ (List.mem_cons_self _ _)
          have hfreshn : n ∉ entries.map Prod.fst :=
            hfresh (n, .file content) (List.mem_cons_self _ _)
          rw [renderFieldLoop]
          dsimp only [BundleField.name, BundleField.kind]
          rw [hgethd]
          dsimp only
          rw [hnonone, if_neg Bool.false_ne_true]
          rw [render_file_step (_snake_case (pathStem n)) (pathStem n) "json" n
            (.fileA [_annotation_for_json_value payload]) payload inst entries
            (canonContent ".json" content) hstem_ne (by decide) hname hne hsl
            hfreshn (write_payload_json_canon content payload enc hdec henc)]
          dsimp only
          rw [hr' inst _ (fun p hp => hget p (List.mem_cons_of_mem _ hp))
            (fresh_after_append tl n entries _
              (fun p hp => hfresh p (List.mem_cons_of_mem _ hp)) hnames.1)]
          rw [List.append_assoc, List.singleton_append, canonEntriesList,
            canonTree, hsfx]
      · -- .jsonl
        obtain ⟨rows, hdec, out, hjoin⟩ := hjsonl hsfx
        have hsuffne : pathSuffix n ≠ "" := by rw [hsfx]; decide
        have hstem_ne : pathStem n ≠ "" := pathStem_ne_empty n hsuffne
        have hname : pathStem n ++ "." ++ "jsonl" = n := by
          rw [str_append_assoc,
            show ("." : String) ++ "jsonl" = ".jsonl" from rfl, ← hsfx]
          exact stem_suffix_append n hsuffne
        refine ⟨⟨_snake_case (pathStem n),
                 .fileA [.listA [_annotation_for_jsonl rows]],
                 [(.kStr "name", .dStr (pathStem n)),
                  (.kStr "extension", .dStr "jsonl")]⟩ :: decls',
                (_snake_case (pathStem n), .vList rows) :: kwargs',
                BundleField.mk (_snake_case (pathStem n)) .FILE
                  (.fileA [.listA [_annotation_for_jsonl rows]])
                  [⟨.LFile, 0,
                    [("name", .moHint ⟨.LITERAL, .hvStr (pathStem n), "self"⟩),
                     ("extension", .moExt "jsonl")]⟩] false :: fields',
                ?_, ?_, ?_, ?_⟩
        · rw [buildEntriesLoop]
          dsimp only
          rw [hsfx, show pyLower ".jsonl" = ".jsonl" from by decide,
            if_neg (by decide),
            show _build_file ".jsonl" content =
              (match decodeJsonlRows (jsonlLines content) with
               | none => Except.error ReadErr.jsonDecodeError
               | some payload_list =>
                 Except.ok (Ann.fileA [.listA [_annotation_for_jsonl payload_list]],
                            PyVal.vList payload_list)) from rfl,
            hdec]
          dsimp only
          rw [show twig (some (.dStr (pathStem n))) (some (lstripDots ".jsonl"))
              none =
            Except.ok [(MKey.kStr "name", DynVal.dStr (pathStem n)),
                       (MKey.kStr "extension", DynVal.dStr "jsonl")] from rfl]
          dsimp only
          rw [hu, hb']
        · exact buildFields_file_cons (_snake_case (pathStem n)) (pathStem n)
            "jsonl" (.listA [_annotation_for_jsonl rows]) decls' fields'
            (contains_dir_jsonl_ann rows) hstem_ne hstem_br rfl hf'
        · rw [List.map_cons, List.map_cons, hk']
          rfl
        · intro inst entries hget hfresh
          have hgethd : getattrPy inst (_snake_case (pathStem n)) =
              some (.vList rows) :=
            hget (_snake_case (pathStem n), .vList rows)
              (List.mem_cons_self _ _)
          have hfreshn : n ∉ entries.map Prod.fst :=
            hfresh (n, .file content) (List.mem_cons_self _ _)
          rw [renderFieldLoop]
          dsimp only [BundleField.name, BundleField.kind]
          rw [hgethd]
          dsimp only
          rw [show isNonePy (PyVal.vList rows) = false from rfl,
            if_neg Bool.false_ne_true]
          rw [render_file_step (_snake_case (pathStem n)) (pathStem n) "jsonl" n
            (.fileA [.listA [_annotation_for_jsonl rows]]) (.vList rows) inst
            entries (canonContent ".jsonl" content) hstem_ne (by decide) hname
            hne hsl hfreshn
            (write_payload_jsonl_canon content rows out hdec hjoin)]
          dsimp only
          rw [hr' inst _ (fun p hp => hget p (List.mem_cons_of_mem _ hp))
            (fresh_after_append tl n entries _
              (fun p hp => hfresh p (List.mem_cons_of_mem _ hp)) hnames.1)]
          rw [List.append_assoc, List.singleton_append, canonEntriesList,
            canonTree, hsfx]

/-- Canonicalization preserves the entry names. -/
theorem canonEntriesList_fst :
    ∀ es : List (String × FsTree),
      (canonEntriesList es).map Prod.fst = es.map Prod.fst := by
  intro es
  induction es with
  | nil => rfl
  | cons hd tl ih =>
    rw [canonEntriesList_cons, List.map_cons, List.map_cons, ih,
      canonEntryFn_fst]

set_option maxHeartbeats 1000000 in
/-- Core round trip: reading a valid directory and rendering the resulting
instance into an empty root reproduces the canonicalized sorted entries. -/
theorem roundtrip_core :
    ∀ (N fuel1 fuel2 : Nat) (es : List (String × FsTree)),
      depthE es ≤ N → depthE es < fuel1 → depthE es < fuel2 →
      validDirB es = true →
      ∃ (d : BundleDefinition) (kw : List (String × PyVal)),
        _build_dir fuel1 es = .ok (d, .vInst (some d) kw) ∧
        _render_fields fuel2 d (.vInst (some d) kw) [] =
          (none, canonEntriesList (sortEntries es)) := by
  intro N
  induction N using Nat.strong_induction_on with
  | _ N ihN =>
    intro fuel1 fuel2 es hN h1 h2 hv
    obtain ⟨f1, rfl⟩ : ∃ f1, fuel1 = f1 + 1 :=
      ⟨fuel1 - 1, (Nat.succ_pred_eq_of_pos
        (Nat.lt_of_le_of_lt (Nat.zero_le _) h1)).symm⟩
    obtain ⟨f2, rfl⟩ : ∃ f2, fuel2 = f2 + 1 :=
      ⟨fuel2 - 1, (Nat.succ_pred_eq_of_pos
        (Nat.lt_of_le_of_lt (Nat.zero_le _) h2)).symm⟩
    obtain ⟨hn1, hn2, hn3⟩ := validDirB_sorted_spec es hv
    have hloopIH : ∀ (m : String) (sub : List (String × FsTree)),
        (m, FsTree.dir sub) ∈ sortEntries es →
        ∃ (d : BundleDefinition) (kw : List (String × PyVal)),
          _build_dir f1 sub = .ok (d, .vInst (some d) kw) ∧
          (fun d i e => _render_fields f2 d i e) d (.vInst (some d) kw) [] =
            (none, canonEntriesList (sortEntries sub)) := by
      intro m sub hmem
      have hmem' := (mem_sortEntries _ _).mp hmem
      have hd : depthE sub + 1 ≤ depthE es := depthT_le_depthE es m _ hmem'
      have hvsub : validDirB sub = true := (hn3 (m, FsTree.dir sub) hmem).2
      have hdN : depthE sub < N :=
        Nat.lt_of_lt_of_le (Nat.lt_of_succ_le hd) hN
      exact ihN (depthE sub) hdN f1 f2 sub le_rfl
        (Nat.lt_of_succ_le (le_trans hd (Nat.lt_succ_iff.mp h1)))
        (Nat.lt_of_succ_le (le_trans hd (Nat.lt_succ_iff.mp h2)))
        hvsub
    obtain ⟨decls, kwargs, fields, hb, hf, hk, hr⟩ :=
      roundtrip_loop f1 (fun d i e => _render_fields f2 d i e)
        (sortEntries es) [] hn3 hn2
        (fun p hp hmem => absurd hmem (List.not_mem_nil _))
        hn1 hloopIH
    refine ⟨BundleDefinition.mk fields, kwargs, ?_, ?_⟩
    · rw [_build_dir]
      rw [hb]
      dsimp only
      have hbd : _build_bundle_definition decls =
          .ok (BundleDefinition.mk fields) := by
        unfold _build_bundle_definition
        rw [hf]
      rw [hbd]
    · rw [_render_fields]
      rw [show BundleDefinition.fields (BundleDefinition.mk fields) = fields
        from rfl]
      have hget : ∀ p ∈ kwargs,
          getattrPy (PyVal.vInst (some (BundleDefinition.mk fields)) kwargs)
            p.1 = some p.2 := by
        intro p hp
        show kwargs.lookup p.1 = some p.2
        exact nodup_lookup_self kwargs (by rw [hk]; exact hn2) p hp
      rw [hr (PyVal.vInst (some (BundleDefinition.mk fields)) kwargs) [] hget
        (fun p hp hmem => absurd hmem (List.not_mem_nil _))]
      rw [List.nil_append]

/-- C1 counterexample data: a one-file tree whose JSON content is not in the
writer's output format. -/
def c1CounterTree : List (String × FsTree) :=
  [("a.json", .file "\x7b\"x\":1\x7d")]

/-- C1 witness data: a valid two-entry tree with a nested directory. -/
def c1Tree : List (String × FsTree) :=
  [("a.txt", .file "hello"),
   ("d", .dir [("b.json", .file "\x7b\"x\": 1\x7d")])]

/-- **C1** (counterexample): the round trip is not byte-exact.  Reading the
single-file tree holding `a.json` with compact content and writing the
returned instance into a fresh destination succeeds but re-encodes the
payload as indented JSON, so the original file content is not reproduced
exactly. -/
theorem C1_counterexample :
    (match infer_bundle_from_directory 1 (.presentDir c1CounterTree) with
     | .ok (_, inst) => write_bundle 1 inst .absent false
     | .error _ => .failed .outOfFuel .absent) =
      .succeeded (.dir [("a.json", .file "\x7b\n  \"x\": 1\n\x7d")]) ∧
    "\x7b\n  \"x\": 1\n\x7d" ≠ "\x7b\"x\":1\x7d" :=
  ⟨rfl, by decide⟩

/-- **C1** (amended): round trip up to canonical re-encoding and the
reader's sorted order.  For every valid directory tree — non-empty entry
names without `/` or a brace pair, distinct names and distinct snake-cased
field candidates per directory, recognized lower-case extensions, decodable
non-null re-encodable `json`/`jsonl` payloads and no carriage returns —
`infer_bundle_from_directory` succeeds, and `write_bundle` of the returned
instance into a fresh destination reproduces every directory's entries in
the reader's sorted order with every relative entry name preserved exactly
(`canonEntriesList` preserves names) and every file content preserved up to
the writer's canonical re-encoding of `json`/`jsonl` payloads (`txt`
contents are byte-exact). -/
theorem C1_amended (es : List (String × FsTree)) (fuel1 fuel2 : Nat)
    (h1 : depthE es < fuel1) (h2 : depthE es < fuel2)
    (hv : validDirB es = true) :
    ∃ (defn : BundleDefinition) (inst : PyVal),
      infer_bundle_from_directory fuel1 (.presentDir es) = .ok (defn, inst) ∧
      write_bundle fuel2 inst .absent false =
        .succeeded (.dir (canonEntriesList (sortEntries es))) ∧
      (canonEntriesList (sortEntries es)).map Prod.fst =
        (sortEntries es).map Prod.fst ∧
      List.Perm (sortEntries es) es := by
  obtain ⟨d, kw, hbd, hrender⟩ :=
    roundtrip_core (depthE es) fuel1 fuel2 es le_rfl h1 h2 hv
  refine ⟨d, .vInst (some d) kw, hbd, ?_, canonEntriesList_fst _,
    sortEntries_perm es⟩
  unfold write_bundle
  dsimp only
  rw [hrender]

/-- Closed witness for `C1_amended` at a concrete two-entry tree with a
nested directory. -/
theorem C1_amended_witness :
    (depthE c1Tree < 2 ∧ validDirB c1Tree = true) ∧
    (∃ (defn : BundleDefinition) (inst : PyVal),
      infer_bundle_from_directory 2 (.presentDir c1Tree) = .ok (defn, inst) ∧
      write_bundle 2 inst .absent false =
        .succeeded (.dir (canonEntriesList (sortEntries c1Tree))) ∧
      (canonEntriesList (sortEntries c1Tree)).map Prod.fst =
        (sortEntries c1Tree).map Prod.fst ∧
      List.Perm (sortEntries c1Tree) c1Tree) :=
  ⟨⟨by decide, by decide⟩,
   C1_amended c1Tree 2 2 (by decide) (by decide) (by decide)⟩

end Pyarty
